import Mathlib

/-!
Verification of the experiment-orchestration harness (task generation,
skip/resume decisions, result extraction and aggregation).

The Python sources are shallowly embedded as executable Lean definitions:

* utils.py           : result-record construction, graph-name qualification;
* algo_runner.py     : task expansion, the skip/resume decision engine and
                       the text-output (cuttana) family pipeline;
* convert_fbs_to_csv.py : the structured-log extractor and CSV writer.

Filesystem state is modelled as a partial map from path strings to file
contents.  External process execution is modelled as an oracle that says,
for each executed task, what (if anything) ends up in its output file.
Python string primitives (strip, split, readline, int conversion, ordering)
are re-implemented over character lists so that every definition reduces
inside the kernel and concrete runs can be checked by decide.
-/

/-! ### Python string primitives, re-implemented so the kernel can evaluate them -/

/-- Whitespace test used by Python strip and split. -/
def pyIsSpace (c : Char) : Bool := c.isWhitespace

/-- Character-list version of Python str.strip(): drop whitespace at both ends. -/
def trimChars (l : List Char) : List Char :=
  ((l.dropWhile pyIsSpace).reverse.dropWhile pyIsSpace).reverse

/-- Python str.strip(). -/
def pyStrip (s : String) : String := String.mk (trimChars s.data)

/-- Helper for pySplit: walk the characters, collecting maximal non-whitespace runs. -/
def splitWSGo : List Char → List Char → List String
  | [], acc => if acc.isEmpty then [] else [String.mk acc.reverse]
  | c :: cs, acc =>
    if pyIsSpace c then
      if acc.isEmpty then splitWSGo cs [] else String.mk acc.reverse :: splitWSGo cs []
    else splitWSGo cs (c :: acc)

/-- Python str.split() with no separator: whitespace-delimited tokens, no empties. -/
def pySplit (s : String) : List String := splitWSGo s.data []

/-- Python file.readline(): the prefix of the content up to the first newline. -/
def firstLine (s : String) : String := String.mk (s.data.takeWhile (fun c => c ≠ '\n'))

/-- Numeric value of a decimal digit character, none for non-digits. -/
def digitVal (c : Char) : Option Nat :=
  if '0' ≤ c ∧ c ≤ '9' then some (c.toNat - '0'.toNat) else none

/-- Parse a non-empty all-digit character list as a Nat. -/
def natOfChars : List Char → Option Nat
  | [] => none
  | l => l.foldl (fun acc c => match acc, digitVal c with
      | some n, some d => some (n * 10 + d)
      | _, _ => none) (some 0)

/-- Python int(s) for the strings this code feeds it (decimal naturals);
conversion failure, which raises in Python on paths no claim exercises,
is modelled as 0. -/
def pyIntNat (s : String) : Nat := (natOfChars (trimChars s.data)).getD 0

/-- Strict lexicographic order on character lists by code point, the order
Python uses to compare strings. -/
def charListLt : List Char → List Char → Bool
  | _, [] => false
  | [], _ :: _ => true
  | a :: as, b :: bs => a.toNat < b.toNat || (a.toNat == b.toNat && charListLt as bs)

/-- Python string less-than. -/
def strLtB (a b : String) : Bool := charListLt a.data b.data

/-! ### Result Record model (utils.py) -/

/-- One row of the canonical output table, at the level of the values the
CSV writer receives: textual fields plus the integer partition count k
(the code keeps k as a Python int in every row it builds or reloads). -/
structure ResultRecord where
  alg_name : String
  graph : String
  seed : String
  k : Nat
  runtime : String
  memory : String
  edge_cut : String
  solution_quality : String
  success : String
deriving DecidableEq, Repr

/-- utils.produce_result: builds a result row; the success flag is "1"
exactly when the stringified edge cut differs from the literal string "0".
The edge_cut argument here is the Python str() of the value passed in. -/
def produce_result (alg_name graph seed : String) (k : Nat)
    (runtime memory edge_cut ECR : String) : ResultRecord :=
  { alg_name := alg_name
    graph := graph
    seed := seed
    k := k
    runtime := runtime
    memory := memory
    edge_cut := edge_cut
    solution_quality := ECR
    success := if edge_cut ≠ "0" then "1" else "0" }

/-- utils.produce_failed_result: the canonical all-zero failed row. -/
def produce_failed_result (alg_name graph : String) (k : Nat) : ResultRecord :=
  { alg_name := alg_name
    graph := graph
    seed := "0"
    k := k
    runtime := "0"
    memory := "0"
    edge_cut := "0"
    solution_quality := "0"
    success := "0" }

/-- utils.get_graph_name: ordering-qualified graph identifier; an invalid
ordering is a fatal configuration error (sys.exit), modelled as none. -/
def get_graph_name (graph ordering : String) : Option String :=
  if ordering = "natural" then some graph
  else if ordering = "random" then some (graph ++ "_r1")
  else if ordering = "random2" then some (graph ++ "_r2")
  else if ordering = "random3" then some (graph ++ "_r3")
  else none

/-- Qualify a whole graph set; none when the ordering mode is invalid.
The source calls get_graph_name inside the expansion loop; for a valid
ordering the hoisting is observationally identical. -/
def qualifiedSet (graph_set : List String) (ordering : String) : Option (List String) :=
  graph_set.mapM (fun g => get_graph_name g ordering)

/-! ### Filesystem model -/

/-- A filesystem: partial map from path to file content. -/
abbrev FS := String → Option String

/-- os.path.exists. -/
def FS.mem (fs : FS) (p : String) : Bool := (fs p).isSome

/-- os.remove. -/
def FS.remove (fs : FS) (p : String) : FS := fun q => if q = p then none else fs q

/-- Writing (or truncating and rewriting) one file. -/
def FS.write (fs : FS) (p c : String) : FS := fun q => if q = p then some c else fs q

/-- os.rename; only invoked by the code on an existing source path. -/
def FS.rename (fs : FS) (src dst : String) : FS :=
  match fs src with
  | some c => FS.write (FS.remove fs src) dst c
  | none => fs

/-! ### Task model and Task Expansion (algo_runner.py, structured-log family) -/

/-- utils.Task: one planned experiment invocation. -/
structure Utils.Task where
  k : Nat
  raw_graph_name : String
  graph_path : String
  stream_buffer : String
  max_pq_size : String
  old_target_path : String
  fbs_target_path : String
deriving DecidableEq, Repr

/-- Body of the structured-log expansion loop (algo_runner lines 166-199):
stream-buffer resolution (with the bb_ratio derived value; the Python
float division int(int(mpq)/int(bb)) truncates, matching Nat division on
the in-range values this harness uses), canonical and legacy filenames,
and the Task record. The hyperparameter dictionary is an association list. -/
def mkFbsTask (outDir : String) (hyper : List (String × String))
    (is_heistream : Bool) (g : String) (k : Nat) : Utils.Task :=
  let stream_buffer0 := (hyper.lookup "stream_buffer").getD
    (if is_heistream then "32768" else "16384")
  let max_pq_size := (hyper.lookup "max_pq_size").getD "131072"
  let stream_buffer :=
    match hyper.lookup "bb_ratio" with
    | some bb => if is_heistream then stream_buffer0
        else toString (pyIntNat max_pq_size / pyIntNat bb)
    | none => stream_buffer0
  let fbs_filename :=
    if is_heistream then g ++ "_" ++ toString k ++ "_" ++ stream_buffer ++ ".bin"
    else g ++ "_" ++ toString k ++ "_" ++ stream_buffer ++ "_" ++ max_pq_size ++ ".bin"
  let old_fbs_filename :=
    if is_heistream then fbs_filename
    else g ++ "_" ++ toString k ++ "_" ++ stream_buffer ++ ".bin"
  { k := k
    raw_graph_name := g
    graph_path := "~/graphs/all/" ++ g ++ ".graph"
    stream_buffer := stream_buffer
    max_pq_size := max_pq_size
    old_target_path := outDir ++ "/" ++ old_fbs_filename
    fbs_target_path := outDir ++ "/" ++ fbs_filename }

/-- Task Expansion for the structured-log family: outer loop over the
partition counts, inner loop over the (ordering-qualified) graph set;
quick_test truncates both lists to their first element first. -/
def expandFbsTasks (outDir : String) (graph_set : List String) (v_k : List Nat)
    (ordering : String) (hyper : List (String × String))
    (is_heistream quick_test : Bool) : Option (List Utils.Task) :=
  let gs := if quick_test then graph_set.take 1 else graph_set
  let ks := if quick_test then v_k.take 1 else v_k
  (qualifiedSet gs ordering).map (fun qs =>
    ks.flatMap (fun k => qs.map (fun g => mkFbsTask outDir hyper is_heistream g k)))

/-! ### Skip/Resume Decision Engine (algo_runner.py lines 208-225) -/

/-- Decision of the skip/resume engine for one task. -/
inductive Decision
  | EXECUTE
  | SKIP
deriving DecidableEq, Repr

/-- One iteration of the decision loop over the task list: with overwrite,
delete canonical and legacy artifacts if present and execute; otherwise
skip on an existing canonical artifact, adopt (rename, counts as skip) an
existing legacy artifact, else execute. -/
def fbsDecideStep (overwrite : Bool) (st : FS × List (Utils.Task × Decision))
    (t : Utils.Task) : FS × List (Utils.Task × Decision) :=
  let fs := st.1
  let decs := st.2
  if overwrite then
    let fs1 := if FS.mem fs t.fbs_target_path then FS.remove fs t.fbs_target_path else fs
    let fs2 := if FS.mem fs1 t.old_target_path then FS.remove fs1 t.old_target_path else fs1
    (fs2, decs ++ [(t, Decision.EXECUTE)])
  else if FS.mem fs t.fbs_target_path then
    (fs, decs ++ [(t, Decision.SKIP)])
  else if FS.mem fs t.old_target_path then
    (FS.rename fs t.old_target_path t.fbs_target_path, decs ++ [(t, Decision.SKIP)])
  else
    (fs, decs ++ [(t, Decision.EXECUTE)])

/-- External batch execution for the structured-log family: the binary
invoked for each task decided EXECUTE may write its canonical artifact
(the orchestrator treats the binary as an opaque collaborator; per-job
failure is tolerated and leaves no artifact). -/
def fbsExec (binWrites : Utils.Task → Bool) (f : FS)
    (decs : List (Utils.Task × Decision)) : FS :=
  decs.foldl (fun f td =>
    if td.2 = Decision.EXECUTE && binWrites td.1 then
      FS.write f td.1.fbs_target_path "partition-log"
    else f) f

/-- Decision engine plus external batch execution over one expanded task
list of the structured-log family. -/
def runFbsCore (overwrite : Bool) (binWrites : Utils.Task → Bool) (fs : FS)
    (tasks : List Utils.Task) : FS × List (Utils.Task × Decision) :=
  let st := tasks.foldl (fbsDecideStep overwrite) (fs, [])
  (fbsExec binWrites st.1 st.2, st.2)

/-- Expansion plus decision engine plus external batch execution for the
structured-log family. -/
def runFbs (overwrite quick_test : Bool) (outDir : String)
    (graph_set : List String) (v_k : List Nat) (ordering : String)
    (hyper : List (String × String)) (is_heistream : Bool)
    (binWrites : Utils.Task → Bool) (fs : FS) :
    Option (FS × List (Utils.Task × Decision)) :=
  (expandFbsTasks outDir graph_set v_k ordering hyper is_heistream quick_test).map
    (runFbsCore overwrite binWrites fs)

/-! ### Text-output family pipeline (algo_runner.py, _run_cuttana_parallel) -/

/-- Row ordering used by the final CSV sort: ascending by graph
(lexicographic) and then by partition count (numeric); the Python key is
the tuple (row.graph, row.k). -/
def rowLe (a b : ResultRecord) : Bool :=
  strLtB a.graph b.graph || (a.graph == b.graph && decide (a.k ≤ b.k))

/-- Propositional form of rowLe, for the sort API. -/
def rowLeP (a b : ResultRecord) : Prop := rowLe a b = true

instance : DecidableRel rowLeP := fun a b => decEq (rowLe a b) true

/-- The sort at algo_runner line 451: Python list.sort is a stable sort by
the (graph, k) key; a stable sort with a fixed total preorder has a unique
result, so the stable insertionSort is the same function. -/
def sortRows (rows : List ResultRecord) : List ResultRecord :=
  List.insertionSort rowLeP rows

/-- Per-task temp file path, temp_results/alg_name/graph_k.txt. -/
def tempPath (alg g : String) (k : Nat) : String :=
  "temp_results/" ++ alg ++ "/" ++ g ++ "_" ++ toString k ++ ".txt"

/-- State threaded through the skip/resume scan of the text family:
accumulated rows, the temp-file filesystem, the tasks still to execute,
and the decision trace. -/
structure ScanState where
  rows : List ResultRecord
  temp : FS
  infos : List (String × Nat)
  decs : List ((String × Nat) × Decision)

/-- One iteration of the text-family skip/resume loop (lines 312-399):
first the pre-loaded table check, then the per-task temp-file check
(adopt a non-empty well formed temp file; delete an empty or malformed
one and execute), else execute. -/
def scanStep (overwrite : Bool) (alg : String) (st : ScanState)
    (p : String × Nat) : ScanState :=
  let g := p.1
  let k := p.2
  if !overwrite && st.rows.any (fun r => r.graph == g && decide (r.k = k)) then
    { st with decs := st.decs ++ [(p, Decision.SKIP)] }
  else
    let tpath := tempPath alg g k
    if FS.mem st.temp tpath && !overwrite then
      let content := (st.temp tpath).getD ""
      let c := pyStrip content
      if c ≠ "" then
        let parts := pySplit c
        if parts.length ≥ 4 then
          { st with
            rows := st.rows ++ [produce_result alg g "0" k
              (parts.getD 0 "") (parts.getD 1 "") (parts.getD 2 "") (parts.getD 3 "")]
            decs := st.decs ++ [(p, Decision.SKIP)] }
        else
          { st with
            temp := FS.remove st.temp tpath
            infos := st.infos ++ [p]
            decs := st.decs ++ [(p, Decision.EXECUTE)] }
      else
        { st with
          temp := FS.remove st.temp tpath
          infos := st.infos ++ [p]
          decs := st.decs ++ [(p, Decision.EXECUTE)] }
    else
      { st with
        infos := st.infos ++ [p]
        decs := st.decs ++ [(p, Decision.EXECUTE)] }

/-- External batch execution for the text family: each executed task pipes
its stdout through tee into its temp file; the oracle gives the content
that ends up there (none when the job leaves no file at all).  Jobs touch
only their own temp file, so completion order is irrelevant. -/
def execPhase (alg : String) (binOut : String → Nat → Option String)
    (temp : FS) (infos : List (String × Nat)) : FS :=
  infos.foldl (fun fs p =>
    match binOut p.1 p.2 with
    | some c => FS.write fs (tempPath alg p.1 p.2) c
    | none => fs) temp

/-- Text-line extraction from one temp file (lines 411-435): read the
first line; with a non-empty line of at least four whitespace-separated
tokens build the row inline (success iff the edge-cut token is not the
string "0"); a missing file, an empty line or fewer tokens give none. -/
def parseTempLine (alg g : String) (k : Nat) (content? : Option String) :
    Option ResultRecord :=
  match content? with
  | some content =>
    let line := pyStrip (firstLine content)
    if line ≠ "" then
      let parts := pySplit line
      if parts.length ≥ 4 then
        some { alg_name := alg
               graph := g
               seed := "0"
               k := k
               runtime := parts.getD 0 ""
               memory := parts.getD 1 ""
               edge_cut := parts.getD 2 ""
               solution_quality := parts.getD 3 ""
               success := if parts.getD 2 "" ≠ "0" then "1" else "0" }
      else none
    else none
  | none => none

/-- One iteration of the result-collection loop (lines 408-447): adopt a
parsed temp line as a result row; otherwise overwrite the temp file with
the sentinel line "0 0 0 0" and append the canonical failed row. -/
def collectStep (alg : String) (st : List ResultRecord × FS)
    (p : String × Nat) : List ResultRecord × FS :=
  match parseTempLine alg p.1 p.2 (st.2 (tempPath alg p.1 p.2)) with
  | some r => (st.1 ++ [r], st.2)
  | none => (st.1 ++ [produce_failed_result alg p.1 p.2],
      FS.write st.2 (tempPath alg p.1 p.2) "0 0 0 0")

/-- Outcome of one text-family run: the canonical table file (none when it
does not exist), the temp-file filesystem, the decision trace and the
in-memory row list at the end. -/
structure CutOutcome where
  csv : Option (List ResultRecord)
  temp : FS
  decs : List ((String × Nat) × Decision)
  rows : List ResultRecord

/-- Expansion order of the text family: outer loop over the graph set,
inner loop over the partition counts (lines 312-313), with quick_test
truncation of both lists. -/
def cuttanaPairs (graph_set : List String) (v_k : List Nat)
    (ordering : String) (quick_test : Bool) : Option (List (String × Nat)) :=
  let gs := if quick_test then graph_set.take 1 else graph_set
  let ks := if quick_test then v_k.take 1 else v_k
  (qualifiedSet gs ordering).map (fun qs => qs.flatMap (fun g => ks.map (fun k => (g, k))))

/-- The pre-existing table as loaded at startup: deleted under overwrite,
otherwise filtered to the partition counts still in scope (line 297). -/
def loadRows (overwrite : Bool) (ks : List Nat)
    (csv : Option (List ResultRecord)) : List ResultRecord :=
  match csv with
  | some r => if overwrite then [] else r.filter (fun row => ks.contains row.k)
  | none => []

/-- The skip/resume scan of the text family over one expanded pair list,
starting from the loaded table. -/
def cutScan (overwrite : Bool) (alg : String) (ks : List Nat)
    (csv : Option (List ResultRecord)) (temp : FS)
    (pairs : List (String × Nat)) : ScanState :=
  pairs.foldl (scanStep overwrite alg)
    { rows := loadRows overwrite ks csv, temp := temp, infos := [], decs := [] }

/-- Scan, then batch execution, then the collection loop: the in-memory
rows and the temp filesystem just before the final table write. -/
def cutFin (overwrite : Bool) (alg : String) (ks : List Nat)
    (binOut : String → Nat → Option String) (csv : Option (List ResultRecord))
    (temp : FS) (pairs : List (String × Nat)) : List ResultRecord × FS :=
  let st := cutScan overwrite alg ks csv temp pairs
  st.infos.foldl (collectStep alg) (st.rows, execPhase alg binOut st.temp st.infos)

/-- The text-family pipeline over one expanded pair list: run the
skip/resume scan from the loaded table, execute what remains, collect
per-task results with the sentinel fallback, and finally sort and rewrite
the table (skipped under quick_test or when no rows exist). -/
def runCuttanaCore (overwrite quick_test : Bool) (alg : String) (v_k : List Nat)
    (binOut : String → Nat → Option String)
    (csv : Option (List ResultRecord)) (temp : FS)
    (pairs : List (String × Nat)) : CutOutcome :=
  let ks := if quick_test then v_k.take 1 else v_k
  let csv0 : Option (List ResultRecord) := if overwrite then none else csv
  let st := cutScan overwrite alg ks csv temp pairs
  let fin := cutFin overwrite alg ks binOut csv temp pairs
  if !quick_test && !fin.1.isEmpty then
    { csv := some (sortRows fin.1), temp := fin.2, decs := st.decs, rows := sortRows fin.1 }
  else
    { csv := csv0, temp := fin.2, decs := st.decs, rows := fin.1 }

/-- The whole text-family pipeline (_run_cuttana_parallel): expansion,
table load, skip/resume scan, batch execution, collection, final write. -/
def runCuttana (overwrite quick_test : Bool) (alg : String)
    (graph_set : List String) (v_k : List Nat) (ordering : String)
    (binOut : String → Nat → Option String)
    (csv : Option (List ResultRecord)) (temp : FS) : Option CutOutcome :=
  (cuttanaPairs graph_set v_k ordering quick_test).map
    (runCuttanaCore overwrite quick_test alg v_k binOut csv temp)

/-! ### Structured-log extractor (convert_fbs_to_csv.py) -/

/-- The decoded fields of a structured-log artifact (the external
flatbuffer schema): graph metadata, run configuration, runtime, memory
and quality metrics.  Runtime and memory only flow into the row text, so
they are carried as the textual form of the decoded values. -/
structure PartitionLog where
  filename : Option String
  num_edges : Nat
  seed : Nat
  k : Nat
  runtime : String
  memory : String
  edge_cut : Nat
deriving DecidableEq, Repr

/-- Result of parse_flatbuffer_file on a decodable artifact: a decode
exception, a discarded record (partition count out of scope), or a row. -/
inductive ParseOutcome
  | err
  | discarded
  | ok (r : ResultRecord)
deriving DecidableEq, Repr

/-- Textual stand-in for the edge-cut ratio edge_cut / num_edges.  The
Python value is a float and its printed form never matters to any
verified property, so the exact ratio is carried instead. -/
def ecrRepr (cut edges : Nat) : String := toString cut ++ "/" ++ toString edges

/-- parse_flatbuffer_file on an already decoded artifact: extract the graph
name, seed and partition count; discard the record when the decoded k is
not in the configured partition-count list; a zero edge count makes the
ratio computation raise (ZeroDivisionError), an error the caller treats
like any other decode exception. -/
def parse_flatbuffer_file (log : PartitionLog) (alg_name : String)
    (kList : List Nat) : ParseOutcome :=
  let graph_name := log.filename.getD ""
  if !kList.contains log.k then ParseOutcome.discarded
  else if log.num_edges = 0 then ParseOutcome.err
  else ParseOutcome.ok (produce_result alg_name graph_name (toString log.seed) log.k
    log.runtime log.memory (toString log.edge_cut) (ecrRepr log.edge_cut log.num_edges))

/-- State of one artifact on disk, as the converter observes it: absent,
present but undecodable (this covers an empty file, whose decode raises),
or decodable with the given fields. -/
inductive FbsArtifact
  | absent
  | invalid
  | valid (log : PartitionLog)
deriving Repr

/-- Per-task body of convert_fbs_to_csv.main: parse the artifact when it
exists; any decode exception or a discarded record degrades to the
canonical failed row for that task, and never affects sibling tasks. -/
def convertTaskRow (alg : String) (kList : List Nat) (art : FbsArtifact)
    (t : Utils.Task) : ResultRecord :=
  match art with
  | FbsArtifact.valid log =>
    match parse_flatbuffer_file log alg kList with
    | ParseOutcome.ok r => r
    | _ => produce_failed_result alg t.raw_graph_name t.k
  | _ => produce_failed_result alg t.raw_graph_name t.k

/-- Non-strict row order on the partition count, key of the first sort. -/
def kLeP (a b : ResultRecord) : Prop := a.k ≤ b.k

instance : DecidableRel kLeP := fun a b => Nat.decLe a.k b.k

/-- Python string less-or-equal. -/
def strLeB (a b : String) : Bool := strLtB a b || a == b

/-- Non-strict row order on the graph name, key of the second sort. -/
def graphLeP (a b : ResultRecord) : Prop := strLeB a.graph b.graph = true

instance : DecidableRel graphLeP := fun a b => decEq (strLeB a.graph b.graph) true

/-- convert_fbs_to_csv.main over a task list: one row per task (artifact
row or failed placeholder), then the two stable sorts of lines 114-115
(by k, then by graph), giving rows sorted by graph and then k. -/
def convertMain (alg : String) (kList : List Nat)
    (arts : Utils.Task → FbsArtifact) (tasks : List Utils.Task) : List ResultRecord :=
  let data_rows := tasks.map (fun t => convertTaskRow alg kList (arts t) t)
  List.insertionSort graphLeP (List.insertionSort kLeP data_rows)

/-! ### Order lemmas for the row sort -/

theorem charToNat_inj {a b : Char} (h : a.toNat = b.toNat) : a = b :=
  Char.eq_of_val_eq (UInt32.eq_of_val_eq (Fin.ext h))

theorem charListLt_trans : ∀ (x y z : List Char),
    charListLt x y = true → charListLt y z = true → charListLt x z = true
  | x, y, [] => fun _ h2 => by cases y <;> simp [charListLt] at h2
  | x, [], _ :: _ => fun h1 _ => by cases x <;> simp [charListLt] at h1
  | [], _ :: _, _ :: _ => fun _ _ => by simp [charListLt]
  | a :: as, b :: bs, c :: cs => fun h1 h2 => by
    simp only [charListLt, Bool.or_eq_true, Bool.and_eq_true, decide_eq_true_eq,
      beq_iff_eq] at h1 h2 ⊢
    rcases h1 with h1 | ⟨hab, h1⟩
    · rcases h2 with h2 | ⟨hbc, h2⟩
      · exact Or.inl (Nat.lt_trans h1 h2)
      · exact Or.inl (hbc ▸ h1)
    · rcases h2 with h2 | ⟨hbc, h2⟩
      · exact Or.inl (hab ▸ h2)
      · exact Or.inr ⟨hab.trans hbc, charListLt_trans as bs cs h1 h2⟩

theorem charListLt_conn : ∀ (x y : List Char),
    x = y ∨ charListLt x y = true ∨ charListLt y x = true
  | [], [] => Or.inl rfl
  | [], _ :: _ => Or.inr (Or.inl (by simp [charListLt]))
  | _ :: _, [] => Or.inr (Or.inr (by simp [charListLt]))
  | a :: as, b :: bs => by
    rcases Nat.lt_trichotomy a.toNat b.toNat with h | h | h
    · exact Or.inr (Or.inl (by simp [charListLt, h]))
    · have hab : a = b := charToNat_inj h
      rcases charListLt_conn as bs with h2 | h2 | h2
      · exact Or.inl (by rw [hab, h2])
      · refine Or.inr (Or.inl ?_)
        simp [charListLt, h, h2]
      · refine Or.inr (Or.inr ?_)
        simp [charListLt, h.symm, h2]
    · exact Or.inr (Or.inr (by simp [charListLt, h]))

theorem strLtB_trans {a b c : String} (h1 : strLtB a b = true) (h2 : strLtB b c = true) :
    strLtB a c = true :=
  charListLt_trans a.data b.data c.data h1 h2

theorem strLtB_conn (a b : String) : a = b ∨ strLtB a b = true ∨ strLtB b a = true := by
  rcases charListLt_conn a.data b.data with h | h | h
  · exact Or.inl (congrArg String.mk h)
  · exact Or.inr (Or.inl h)
  · exact Or.inr (Or.inr h)

theorem rowLe_total (a b : ResultRecord) : rowLe a b = true ∨ rowLe b a = true := by
  rcases strLtB_conn a.graph b.graph with h | h | h
  · rcases Nat.le_total a.k b.k with hk | hk
    · exact Or.inl (by simp [rowLe, h, hk])
    · exact Or.inr (by simp [rowLe, h, hk])
  · exact Or.inl (by simp [rowLe, h])
  · exact Or.inr (by simp [rowLe, h])

theorem rowLe_trans {a b c : ResultRecord} (h1 : rowLe a b = true)
    (h2 : rowLe b c = true) : rowLe a c = true := by
  simp only [rowLe, Bool.or_eq_true, Bool.and_eq_true, decide_eq_true_eq, beq_iff_eq]
    at h1 h2 ⊢
  rcases h1 with h1 | ⟨hab, h1⟩
  · rcases h2 with h2 | ⟨hbc, h2⟩
    · exact Or.inl (strLtB_trans h1 h2)
    · exact Or.inl (hbc ▸ h1)
  · rcases h2 with h2 | ⟨hbc, h2⟩
    · exact Or.inl (hab ▸ h2)
    · exact Or.inr ⟨hab.trans hbc, h1.trans h2⟩

instance : IsTotal ResultRecord rowLeP := ⟨fun a b => rowLe_total a b⟩

instance : IsTrans ResultRecord rowLeP := ⟨fun _ _ _ h1 h2 => rowLe_trans h1 h2⟩

theorem sortRows_perm (rows : List ResultRecord) : (sortRows rows).Perm rows :=
  List.perm_insertionSort rowLeP rows

theorem sortRows_sorted (rows : List ResultRecord) : (sortRows rows).Pairwise rowLeP :=
  List.sorted_insertionSort rowLeP rows

/-! ### Claim C1: the success flag -/

/-- Decimal digit test for the spec-side numeral reading. -/
def specIsDigit (c : Char) : Bool := decide ('0' ≤ c) && decide (c ≤ '9')

/-- Strip one leading sign character. -/
def specStripSign : List Char → List Char
  | '-' :: r => r
  | '+' :: r => r
  | l => l

/-- Modelled from the spec wording, not from the code: the string parses
as a plain decimal numeral (optional sign, digits, at most one decimal
point, at least one digit overall). -/
def specParsesAsNumber (s : String) : Bool :=
  let l := specStripSign (trimChars s.data)
  let intPart := l.takeWhile specIsDigit
  match l.drop intPart.length with
  | [] => !intPart.isEmpty
  | '.' :: frac => (!intPart.isEmpty || !frac.isEmpty) && frac.all specIsDigit
  | _ => false

/-- Modelled from the spec wording: the string parses as a numeral whose
value is zero (every digit is 0). -/
def specParsesAsZero (s : String) : Bool :=
  specParsesAsNumber s &&
    (specStripSign (trimChars s.data)).all (fun c => c = '0' || c = '.')

/-- Modelled from the spec wording: present and parses as non-zero. -/
def specParsesNonzero (s : String) : Bool :=
  specParsesAsNumber s && !specParsesAsZero s

/-- Each iteration of the collection loop appends exactly one row, keyed
by its own task, whose success flag is "1" exactly when its edge_cut
string differs from "0". -/
theorem parseTempLine_some (alg g : String) (k : Nat) (content? : Option String)
    (r : ResultRecord) (h : parseTempLine alg g k content? = some r) :
    r.graph = g ∧ r.k = k ∧ (r.success = "1" ↔ r.edge_cut ≠ "0") := by
  rcases content? with _ | content
  · exact absurd h (by simp [parseTempLine])
  · unfold parseTempLine at h
    simp only at h
    split_ifs at h with h1 h2 h3 <;> try cases h
    all_goals exact ⟨rfl, rfl, by simp_all [List.getD]⟩

theorem collectStep_append (alg : String) (st : List ResultRecord × FS)
    (p : String × Nat) :
    ∃ r, (collectStep alg st p).1 = st.1 ++ [r] ∧ r.graph = p.1 ∧ r.k = p.2 ∧
      (r.success = "1" ↔ r.edge_cut ≠ "0") := by
  rcases hm : parseTempLine alg p.1 p.2 (st.2 (tempPath alg p.1 p.2)) with _ | r
  · exact ⟨produce_failed_result alg p.1 p.2, by simp [collectStep, hm], rfl, rfl,
      by simp [produce_failed_result]⟩
  · obtain ⟨h1, h2, h3⟩ := parseTempLine_some alg p.1 p.2 _ r hm
    exact ⟨r, by simp [collectStep, hm], h1, h2, h3⟩

/-- C1, counterexample: the claim requires success = "0" whenever the
edge-cut parses as zero, in any textual form such as "0.0"; but
produce_result compares the string against the literal "0" only, so the
record built from edge_cut "0.0" has success = "1" although "0.0" parses
as zero. -/
theorem c1_counterexample :
    ¬ (((produce_result "cuttana" "g1" "0" 4 "10.5" "2.1" "0.0" "0.5").success = "1")
        ↔ specParsesNonzero "0.0" = true) := by decide

/-- C1, amended: for every record built by produce_result, and for every
row appended by the inline text-family extraction, success = "1" iff the
stringified edge_cut differs from the literal "0" (so textual variants of
zero such as "0.0" or "00" count as success). -/
theorem c1_success_iff_edge_cut_string_ne_zero (alg_name graph seed : String) (k : Nat)
    (runtime memory edge_cut ECR : String) (alg : String)
    (st : List ResultRecord × FS) (p : String × Nat) :
    ((produce_result alg_name graph seed k runtime memory edge_cut ECR).success = "1"
      ↔ edge_cut ≠ "0") ∧
    (∀ r ∈ (collectStep alg st p).1, r ∈ st.1 ∨ (r.success = "1" ↔ r.edge_cut ≠ "0")) := by
  constructor
  · by_cases h : edge_cut = "0" <;> simp [produce_result, h]
  · intro r hr
    obtain ⟨r0, he, -, -, hs⟩ := collectStep_append alg st p
    rw [he] at hr
    rcases List.mem_append.mp hr with h | h
    · exact Or.inl h
    · rcases List.mem_singleton.mp h with rfl
      exact Or.inr hs

/-- Witness for C1 at a concrete input: a record with edge_cut "3" has
success "1", and the row the collection loop appends for a missing temp
file satisfies the success-iff-edge-cut property. -/
theorem c1_witness :
    (((produce_result "cuttana" "g1" "0" 4 "1" "2" "3" "4").success = "1")
      ↔ ("3" : String) ≠ "0") ∧
    ((produce_failed_result "cuttana" "g1" 4).success = "1"
      ↔ (produce_failed_result "cuttana" "g1" 4).edge_cut ≠ "0") := by
  refine ⟨(c1_success_iff_edge_cut_string_ne_zero "cuttana" "g1" "0" 4 "1" "2" "3" "4"
    "cuttana" ([], fun _ => none) ("g1", 4)).1, ?_⟩
  have h := (c1_success_iff_edge_cut_string_ne_zero "cuttana" "g1" "0" 4 "1" "2" "3" "4"
    "cuttana" ([], fun _ => none) ("g1", 4)).2
    (produce_failed_result "cuttana" "g1" 4) (by decide)
  exact h.resolve_left (by decide)

/-! ### Claim C2: the skip/resume decision policy -/

/-- C2: the decision engine follows the policy in order.  With overwrite
enabled the step decides EXECUTE and afterwards neither the canonical nor
the legacy artifact exists.  Otherwise an existing canonical artifact
gives SKIP with the filesystem untouched; else an existing legacy
artifact gives SKIP with the legacy file renamed to the canonical name
(same content, legacy path gone); else EXECUTE with the filesystem
untouched. -/
theorem c2_decision_policy (fs : FS) (decs : List (Utils.Task × Decision))
    (t : Utils.Task) :
    ((fbsDecideStep true (fs, decs) t).2 = decs ++ [(t, Decision.EXECUTE)] ∧
      FS.mem (fbsDecideStep true (fs, decs) t).1 t.fbs_target_path = false ∧
      FS.mem (fbsDecideStep true (fs, decs) t).1 t.old_target_path = false) ∧
    (FS.mem fs t.fbs_target_path = true →
      fbsDecideStep false (fs, decs) t = (fs, decs ++ [(t, Decision.SKIP)])) ∧
    (FS.mem fs t.fbs_target_path = false → FS.mem fs t.old_target_path = true →
      (fbsDecideStep false (fs, decs) t).2 = decs ++ [(t, Decision.SKIP)] ∧
      (fbsDecideStep false (fs, decs) t).1 t.fbs_target_path = fs t.old_target_path ∧
      (t.old_target_path ≠ t.fbs_target_path →
        (fbsDecideStep false (fs, decs) t).1 t.old_target_path = none)) ∧
    (FS.mem fs t.fbs_target_path = false → FS.mem fs t.old_target_path = false →
      fbsDecideStep false (fs, decs) t = (fs, decs ++ [(t, Decision.EXECUTE)])) := by
  refine ⟨⟨by simp [fbsDecideStep], ?_, ?_⟩, ?_, ?_, ?_⟩
  · by_cases h1 : FS.mem fs t.fbs_target_path <;>
      by_cases h2 : t.old_target_path = t.fbs_target_path <;>
      simp [fbsDecideStep, FS.mem, FS.remove, h1, h2] <;>
      split_ifs <;> simp_all [FS.mem, FS.remove]
  · by_cases h1 : FS.mem fs t.fbs_target_path <;>
      simp [fbsDecideStep, FS.mem, FS.remove, h1] <;>
      split_ifs <;> simp_all [FS.mem, FS.remove]
  · intro h1
    simp [fbsDecideStep, h1]
  · intro h1 h2
    rcases hv : fs t.old_target_path with _ | c
    · simp [FS.mem, hv] at h2
    · refine ⟨by simp [fbsDecideStep, h1, h2], ?_, ?_⟩
      · simp [fbsDecideStep, h1, h2, FS.rename, hv, FS.write, FS.remove]
      · intro hne
        simp [fbsDecideStep, h1, h2, FS.rename, hv, FS.write, FS.remove, hne,
          Ne.symm hne]
  · intro h1 h2
    simp [fbsDecideStep, h1, h2]

/-- Fixture task for concrete decision-engine checks. -/
def wTask : Utils.Task := mkFbsTask "out" [] false "g1" 4

/-- Witness for C2 at a concrete state: a filesystem holding only the
legacy artifact of the fixture task is adopted (SKIP, canonical now holds
the legacy content, legacy gone), and the empty filesystem gives EXECUTE. -/
theorem c2_witness :
    ((fbsDecideStep false ((fun q => if q = wTask.old_target_path then some "log" else none),
        []) wTask).2 = [(wTask, Decision.SKIP)] ∧
      (fbsDecideStep false ((fun q => if q = wTask.old_target_path then some "log" else none),
        []) wTask).1 wTask.fbs_target_path = some "log" ∧
      (fbsDecideStep false ((fun q => if q = wTask.old_target_path then some "log" else none),
        []) wTask).1 wTask.old_target_path = none) ∧
    fbsDecideStep false ((fun _ => none), []) wTask = ((fun _ => none), [(wTask, Decision.EXECUTE)]) := by
  constructor
  · obtain ⟨-, -, h3, -⟩ := c2_decision_policy
      (fun q => if q = wTask.old_target_path then some "log" else none) [] wTask
    obtain ⟨ha, hb, hc⟩ := h3 (by decide) (by decide)
    exact ⟨ha, by rw [hb]; decide, hc (by decide)⟩
  · obtain ⟨-, -, -, h4⟩ := c2_decision_policy (fun _ => none) [] wTask
    exact h4 (by decide) (by decide)

/-! ### Claim C3: task expansion order -/

/-- Projection of an expanded structured-log task to its identifying pair. -/
theorem mkFbsTask_proj (outDir : String) (hyper : List (String × String))
    (ih : Bool) (g : String) (k : Nat) :
    (mkFbsTask outDir hyper ih g k).raw_graph_name = g ∧
      (mkFbsTask outDir hyper ih g k).k = k := by
  unfold mkFbsTask
  rcases hyper.lookup "bb_ratio" with _ | bb <;> simp

/-- C3, counterexample: with graph set [g1, g2], ordering random and
k-list [4, 8], the text-output family expands graph-major, namely
(g1_r1,4), (g1_r1,8), (g2_r1,4), (g2_r1,8) — not the k-major order
(4,g1_r1), (4,g2_r1), (8,g1_r1), (8,g2_r1) the claim states for both
families. -/
theorem c3_counterexample :
    cuttanaPairs ["g1", "g2"] [4, 8] "random" false =
      some [("g1_r1", 4), ("g1_r1", 8), ("g2_r1", 4), ("g2_r1", 8)] ∧
    cuttanaPairs ["g1", "g2"] [4, 8] "random" false ≠
      some [("g1_r1", 4), ("g2_r1", 4), ("g1_r1", 8), ("g2_r1", 8)] := by decide

/-- C3, amended: the structured-log family expands k-major (outer loop
over partition counts, inner loop over the graph set) while the
text-output family expands graph-major (outer loop over the graph set,
inner loop over partition counts); in the scenario of the claim the
structured-log family produces exactly the four stated tasks in k-major
order. -/
theorem c3_expansion_order (outDir : String) (gs : List String) (ks : List Nat)
    (ordering : String) (hyper : List (String × String)) (ih : Bool)
    (qs : List String) (h : qualifiedSet gs ordering = some qs) :
    (expandFbsTasks outDir gs ks ordering hyper ih false).map
        (fun ts => ts.map (fun t => (t.raw_graph_name, t.k)))
      = some (ks.flatMap (fun k => qs.map (fun g => (g, k)))) ∧
    cuttanaPairs gs ks ordering false = some (qs.flatMap (fun g => ks.map (fun k => (g, k)))) ∧
    (expandFbsTasks outDir ["g1", "g2"] [4, 8] "random" hyper ih false).map
        (fun ts => ts.map (fun t => (t.raw_graph_name, t.k)))
      = some [("g1_r1", 4), ("g2_r1", 4), ("g1_r1", 8), ("g2_r1", 8)] := by
  have hproj : ∀ ks0 : List Nat, ∀ qs0 : List String,
      (ks0.flatMap (fun k => qs0.map (fun g => mkFbsTask outDir hyper ih g k))).map
          (fun t => (t.raw_graph_name, t.k))
        = ks0.flatMap (fun k => qs0.map (fun g => (g, k))) := by
    intro ks0 qs0
    rw [List.map_flatMap]
    refine List.flatMap_congr ?_
    intro k _
    rw [List.map_map]
    refine List.map_congr_left ?_
    intro g _
    have hp := mkFbsTask_proj outDir hyper ih g k
    simp [Function.comp, hp.1, hp.2]
  refine ⟨?_, by simp [cuttanaPairs, h], ?_⟩
  · have he : expandFbsTasks outDir gs ks ordering hyper ih false
        = some (ks.flatMap (fun k => qs.map (fun g => mkFbsTask outDir hyper ih g k))) := by
      simp [expandFbsTasks, h]
    rw [he]
    exact congrArg some (hproj ks qs)
  · have h2 : qualifiedSet ["g1", "g2"] "random" = some ["g1_r1", "g2_r1"] := by decide
    have he : expandFbsTasks outDir ["g1", "g2"] [4, 8] "random" hyper ih false
        = some ([4, 8].flatMap (fun k => ["g1_r1", "g2_r1"].map
            (fun g => mkFbsTask outDir hyper ih g k))) := by
      simp [expandFbsTasks, h2]
    rw [he]
    exact congrArg some ((hproj [4, 8] ["g1_r1", "g2_r1"]).trans (by decide))

/-- Witness for C3 at concrete input: the structured-log expansion of
[g1, g2] with ordering random and k-list [4, 8] is k-major, and the
text-output expansion of the same configuration is graph-major. -/
theorem c3_witness :
    (expandFbsTasks "out" ["g1", "g2"] [4, 8] "random" [] false false).map
        (fun ts => ts.map (fun t => (t.raw_graph_name, t.k)))
      = some [("g1_r1", 4), ("g2_r1", 4), ("g1_r1", 8), ("g2_r1", 8)] ∧
    cuttanaPairs ["g1", "g2"] [4, 8] "random" false =
      some [("g1_r1", 4), ("g1_r1", 8), ("g2_r1", 4), ("g2_r1", 8)] := by
  obtain ⟨h1, h2, -⟩ := c3_expansion_order "out" ["g1", "g2"] [4, 8] "random" [] false
    ["g1_r1", "g2_r1"] (by decide)
  exact ⟨h1.trans (by decide), h2.trans (by decide)⟩

/-! ### Claim C9: quick_test truncation -/

theorem qualifiedSet_nil (ordering : String) : qualifiedSet [] ordering = some [] := rfl

theorem qualifiedSet_cons (g : String) (gs : List String) (ordering : String) :
    qualifiedSet (g :: gs) ordering =
      (get_graph_name g ordering).bind (fun q =>
        (qualifiedSet gs ordering).map (fun qs => q :: qs)) := by
  unfold qualifiedSet
  rw [List.mapM_cons]
  cases get_graph_name g ordering
  · rfl
  · cases gs.mapM (fun g => get_graph_name g ordering) <;> rfl

/-- C9: with quick_test requested and non-empty graph set and
partition-count list, both families expand to exactly one task. -/
theorem c9_quick_test_one_task (outDir : String) (gs : List String) (ks : List Nat)
    (ordering : String) (hyper : List (String × String)) (ih : Bool)
    (ts : List Utils.Task) (ps : List (String × Nat))
    (hg : gs ≠ []) (hk : ks ≠ [])
    (h1 : expandFbsTasks outDir gs ks ordering hyper ih true = some ts)
    (h2 : cuttanaPairs gs ks ordering true = some ps) :
    ts.length = 1 ∧ ps.length = 1 := by
  rcases gs with _ | ⟨g, gs0⟩
  · exact absurd rfl hg
  rcases ks with _ | ⟨k, ks0⟩
  · exact absurd rfl hk
  rcases hq : get_graph_name g ordering with _ | q
  · have hqs : qualifiedSet [g] ordering = none := by
      rw [qualifiedSet_cons, hq]
      rfl
    simp [expandFbsTasks, hqs] at h1
  · have hqs : qualifiedSet [g] ordering = some [q] := by
      rw [qualifiedSet_cons, hq]
      rfl
    simp [expandFbsTasks, hqs] at h1
    simp [cuttanaPairs, hqs] at h2
    rw [← h1, ← h2]
    exact ⟨rfl, rfl⟩

/-- Witness for C9: graph set of size 5 and partition-count list of size 7
expand, under quick_test, to exactly one task in both families. -/
theorem c9_witness :
    ∃ ts ps, expandFbsTasks "out" ["g1", "g2", "g3", "g4", "g5"] [4, 8, 16, 32, 64, 128, 256]
        "natural" [] false true = some ts ∧
      cuttanaPairs ["g1", "g2", "g3", "g4", "g5"] [4, 8, 16, 32, 64, 128, 256]
        "natural" true = some ps ∧
      ts.length = 1 ∧ ps.length = 1 := by
  refine ⟨[mkFbsTask "out" [] false "g1" 4], [("g1", 4)], by decide, by decide, ?_⟩
  exact c9_quick_test_one_task "out" ["g1", "g2", "g3", "g4", "g5"]
    [4, 8, 16, 32, 64, 128, 256] "natural" [] false _ _ (by decide) (by decide)
    (by decide) (by decide)

/-! ### Claim C7: the out-of-scope guard of the structured-log extractor -/

/-- C7: when the decoded partition count of an artifact is not in the
configured partition-count list, parse_flatbuffer_file returns no result
(the record is discarded), and the row the converter emits for that task
is the failed placeholder, not a row derived from the artifact data. -/
theorem c7_out_of_scope_discarded (log : PartitionLog) (alg : String)
    (kList : List Nat) (t : Utils.Task) (h : log.k ∉ kList) :
    parse_flatbuffer_file log alg kList = ParseOutcome.discarded ∧
    convertTaskRow alg kList (FbsArtifact.valid log) t =
      produce_failed_result alg t.raw_graph_name t.k := by
  exact ⟨by simp [parse_flatbuffer_file, h],
    by simp [convertTaskRow, parse_flatbuffer_file, h]⟩

/-- Fixture artifact for concrete extractor checks: decoded k is 3. -/
def wLog : PartitionLog :=
  { filename := some "g1"
    num_edges := 10
    seed := 0
    k := 3
    runtime := "1.5"
    memory := "2"
    edge_cut := 7 }

/-- Witness for C7: an artifact decoded with k = 3 under the configured
list [4, 8] is discarded and its task degrades to the failed row. -/
theorem c7_witness :
    parse_flatbuffer_file wLog "alg" [4, 8] = ParseOutcome.discarded ∧
    convertTaskRow "alg" [4, 8] (FbsArtifact.valid wLog) wTask
      = produce_failed_result "alg" wTask.raw_graph_name wTask.k :=
  c7_out_of_scope_discarded wLog "alg" [4, 8] wTask (by decide)

/-! ### Claim C8: degradation of absent, empty and invalid artifacts -/

/-- C8: both extractors degrade an absent, empty or structurally invalid
artifact to the canonical all-zero failed row for that task, and the
extraction of one task never affects its siblings (the converter emits
exactly one row per task, and each text-family collection step touches
only its own entry).  In the structured-log model FbsArtifact.invalid
covers any artifact whose decode raises, which includes an empty file. -/
theorem c8_degrade_to_failed (alg : String) (kList : List Nat) (t : Utils.Task)
    (st : List ResultRecord × FS) (p : String × Nat)
    (arts : Utils.Task → FbsArtifact) (tasks : List Utils.Task) :
    convertTaskRow alg kList FbsArtifact.absent t =
      produce_failed_result alg t.raw_graph_name t.k ∧
    convertTaskRow alg kList FbsArtifact.invalid t =
      produce_failed_result alg t.raw_graph_name t.k ∧
    (st.2 (tempPath alg p.1 p.2) = none →
      (collectStep alg st p).1 = st.1 ++ [produce_failed_result alg p.1 p.2]) ∧
    (∀ content, st.2 (tempPath alg p.1 p.2) = some content →
      pyStrip (firstLine content) = "" →
      (collectStep alg st p).1 = st.1 ++ [produce_failed_result alg p.1 p.2]) ∧
    (∀ content, st.2 (tempPath alg p.1 p.2) = some content →
      (pySplit (pyStrip (firstLine content))).length < 4 →
      (collectStep alg st p).1 = st.1 ++ [produce_failed_result alg p.1 p.2]) ∧
    (convertMain alg kList arts tasks).length = tasks.length ∧
    produce_failed_result alg p.1 p.2 =
      { alg_name := alg
        graph := p.1
        seed := "0"
        k := p.2
        runtime := "0"
        memory := "0"
        edge_cut := "0"
        solution_quality := "0"
        success := "0" } := by
  refine ⟨by simp [convertTaskRow], by simp [convertTaskRow], ?_, ?_, ?_, ?_, rfl⟩
  · intro hm
    simp [collectStep, parseTempLine, hm]
  · intro content hm he
    simp [collectStep, parseTempLine, hm, he]
  · intro content hm hl
    by_cases he : pyStrip (firstLine content) = ""
    · simp [collectStep, parseTempLine, hm, he]
    · simp [collectStep, parseTempLine, hm, he, Nat.not_le.mpr hl]
  · unfold convertMain
    rw [(List.perm_insertionSort graphLeP _).length_eq,
      (List.perm_insertionSort kLeP _).length_eq, List.length_map]

/-- Witness for C8: at a concrete task with no temp file and no artifact,
both extractors produce the failed row and the converter emits one row
per task. -/
theorem c8_witness :
    convertTaskRow "alg" [4] FbsArtifact.absent wTask =
      produce_failed_result "alg" wTask.raw_graph_name wTask.k ∧
    (collectStep "alg" ([], fun _ => none) ("g1", 4)).1 =
      [produce_failed_result "alg" "g1" 4] ∧
    (convertMain "alg" [4] (fun _ => FbsArtifact.absent) [wTask]).length = 1 := by
  obtain ⟨h1, -, h3, -, -, h6, -⟩ := c8_degrade_to_failed "alg" [4] wTask
    ([], fun _ => none) ("g1", 4) (fun _ => FbsArtifact.absent) [wTask]
  exact ⟨h1, h3 rfl, h6⟩

/-! ### Claim C6: the per-task temp-file check of the text family -/

/-- C6: the temp-file check runs only after the table check missed.  A
pair already present in the pre-loaded table is skipped with nothing
touched.  After a table miss: a present, non-empty temp file with at
least four whitespace-separated tokens is adopted as a completed result
and the task is skipped; a present but empty (whitespace-only) or
malformed (fewer than four tokens) temp file is deleted and the task is
decided EXECUTE. -/
theorem c6_temp_file_check (alg : String) (st : ScanState) (p : String × Nat)
    (content : String) :
    (st.rows.any (fun r => r.graph == p.1 && decide (r.k = p.2)) = true →
      scanStep false alg st p = { st with decs := st.decs ++ [(p, Decision.SKIP)] }) ∧
    (st.rows.any (fun r => r.graph == p.1 && decide (r.k = p.2)) = false →
      st.temp (tempPath alg p.1 p.2) = some content →
      pyStrip content ≠ "" →
      (pySplit (pyStrip content)).length ≥ 4 →
      scanStep false alg st p =
        { st with
          rows := st.rows ++ [produce_result alg p.1 "0" p.2
            ((pySplit (pyStrip content)).getD 0 "") ((pySplit (pyStrip content)).getD 1 "")
            ((pySplit (pyStrip content)).getD 2 "") ((pySplit (pyStrip content)).getD 3 "")]
          decs := st.decs ++ [(p, Decision.SKIP)] }) ∧
    (st.rows.any (fun r => r.graph == p.1 && decide (r.k = p.2)) = false →
      st.temp (tempPath alg p.1 p.2) = some content →
      pyStrip content = "" →
      scanStep false alg st p =
        { st with
          temp := FS.remove st.temp (tempPath alg p.1 p.2)
          infos := st.infos ++ [p]
          decs := st.decs ++ [(p, Decision.EXECUTE)] }) ∧
    (st.rows.any (fun r => r.graph == p.1 && decide (r.k = p.2)) = false →
      st.temp (tempPath alg p.1 p.2) = some content →
      pyStrip content ≠ "" →
      (pySplit (pyStrip content)).length < 4 →
      scanStep false alg st p =
        { st with
          temp := FS.remove st.temp (tempPath alg p.1 p.2)
          infos := st.infos ++ [p]
          decs := st.decs ++ [(p, Decision.EXECUTE)] }) := by
  refine ⟨?_, ?_, ?_, ?_⟩
  · intro h
    simp [scanStep, h]
  · intro h hm he hl
    simp [scanStep, h, FS.mem, hm, he, hl]
  · intro h hm he
    simp [scanStep, h, FS.mem, hm, he]
  · intro h hm he hl
    simp [scanStep, h, FS.mem, hm, he, Nat.not_le.mpr hl]

/-- Fixture scan state: one pre-loaded row for (gX, 2), temp files for
(g1, 4) holding a well formed line, (g2, 8) holding only whitespace. -/
def wScan : ScanState :=
  { rows := [produce_result "alg" "gX" "0" 2 "1" "2" "3" "4"]
    temp := fun q =>
      if q = tempPath "alg" "g1" 4 then some "1.5 2.0 30 0.1"
      else if q = tempPath "alg" "g2" 8 then some "   "
      else none
    infos := []
    decs := [] }

/-- Witness for C6 on the fixture state: the table hit skips with rows
untouched, the well formed temp file is adopted (SKIP, one row appended),
and the whitespace-only temp file gives decision EXECUTE with the task
queued. -/
theorem c6_witness :
    (scanStep false "alg" wScan ("gX", 2)).decs = [(("gX", 2), Decision.SKIP)] ∧
    (scanStep false "alg" wScan ("gX", 2)).rows = wScan.rows ∧
    (scanStep false "alg" wScan ("g1", 4)).rows =
      wScan.rows ++ [produce_result "alg" "g1" "0" 4 "1.5" "2.0" "30" "0.1"] ∧
    (scanStep false "alg" wScan ("g1", 4)).decs = [(("g1", 4), Decision.SKIP)] ∧
    (scanStep false "alg" wScan ("g2", 8)).infos = [("g2", 8)] ∧
    (scanStep false "alg" wScan ("g2", 8)).decs = [(("g2", 8), Decision.EXECUTE)] ∧
    (scanStep false "alg" wScan ("g2", 8)).temp (tempPath "alg" "g2" 8) = none := by
  obtain ⟨h1, -, -, -⟩ := c6_temp_file_check "alg" wScan ("gX", 2) ""
  obtain ⟨-, h2, -, -⟩ := c6_temp_file_check "alg" wScan ("g1", 4) "1.5 2.0 30 0.1"
  obtain ⟨-, -, h3, -⟩ := c6_temp_file_check "alg" wScan ("g2", 8) "   "
  have h1c := h1 (by decide)
  have h2c := h2 (by decide) (by decide) (by decide) (by decide)
  have h3c := h3 (by decide) (by decide) (by decide)
  rw [h1c, h2c, h3c]
  refine ⟨rfl, rfl, by decide, rfl, rfl, rfl, ?_⟩
  simp [FS.remove]

/-! ### Fold lemmas for the text-family pipeline -/

/-- Table-presence test of the scan (line 317): some accumulated row has
this graph and partition count. -/
def coversB (rows : List ResultRecord) (p : String × Nat) : Bool :=
  rows.any (fun r => r.graph == p.1 && decide (r.k = p.2))

theorem self_append_nil {α : Type} (l : List α) : l = l ++ [] := (List.append_nil l).symm

theorem coversB_mono {rows : List ResultRecord} {p : String × Nat}
    (ext : List ResultRecord) (h : coversB rows p = true) :
    coversB (rows ++ ext) p = true := by
  simp only [coversB, List.any_append, Bool.or_eq_true]
  exact Or.inl h

/-- Each scan step only appends to the row list, only appends to the
pending-task list, and appends exactly one decision, keyed by its own
pair. -/
theorem scanStep_extend (ow : Bool) (alg : String) (st : ScanState) (p : String × Nat) :
    (∃ ext, (scanStep ow alg st p).rows = st.rows ++ ext) ∧
    (∃ ext2, (scanStep ow alg st p).infos = st.infos ++ ext2) ∧
    (∃ d, (scanStep ow alg st p).decs = st.decs ++ [(p, d)]) := by
  simp only [scanStep]
  split_ifs
  · exact ⟨⟨[], self_append_nil _⟩, ⟨[], self_append_nil _⟩, ⟨Decision.SKIP, rfl⟩⟩
  · exact ⟨⟨_, rfl⟩, ⟨[], self_append_nil _⟩, ⟨Decision.SKIP, rfl⟩⟩
  · exact ⟨⟨[], self_append_nil _⟩, ⟨[p], rfl⟩, ⟨Decision.EXECUTE, rfl⟩⟩
  · exact ⟨⟨[], self_append_nil _⟩, ⟨[p], rfl⟩, ⟨Decision.EXECUTE, rfl⟩⟩
  · exact ⟨⟨[], self_append_nil _⟩, ⟨[p], rfl⟩, ⟨Decision.EXECUTE, rfl⟩⟩

/-- After its own scan step, a pair is either covered by the accumulated
rows or queued for execution. -/
theorem scanStep_cover_or_info (ow : Bool) (alg : String) (st : ScanState)
    (p : String × Nat) :
    coversB (scanStep ow alg st p).rows p = true ∨
      (scanStep ow alg st p).infos = st.infos ++ [p] := by
  simp only [scanStep]
  split_ifs with h1 h2 h3 h4
  · exact Or.inl ((Bool.and_eq_true _ _).mp h1).2
  · refine Or.inl ?_
    simp [coversB, List.any_append, produce_result]
  · exact Or.inr rfl
  · exact Or.inr rfl
  · exact Or.inr rfl

theorem scanFold_extend (ow : Bool) (alg : String) : ∀ (ps : List (String × Nat))
    (st : ScanState),
    (∃ ext, (ps.foldl (scanStep ow alg) st).rows = st.rows ++ ext) ∧
    (∃ ext2, (ps.foldl (scanStep ow alg) st).infos = st.infos ++ ext2)
  | [], st => ⟨⟨[], self_append_nil _⟩, ⟨[], self_append_nil _⟩⟩
  | p :: ps, st => by
    obtain ⟨⟨e1, he1⟩, ⟨e2, he2⟩, -⟩ := scanStep_extend ow alg st p
    obtain ⟨⟨f1, hf1⟩, ⟨f2, hf2⟩⟩ := scanFold_extend ow alg ps (scanStep ow alg st p)
    exact ⟨⟨e1 ++ f1, by rw [List.foldl_cons, hf1, he1, List.append_assoc]⟩,
      ⟨e2 ++ f2, by rw [List.foldl_cons, hf2, he2, List.append_assoc]⟩⟩

/-- After the scan, every expanded pair is covered by a row or pending. -/
theorem scanFold_cover (ow : Bool) (alg : String) : ∀ (ps : List (String × Nat))
    (st : ScanState) (p : String × Nat), p ∈ ps →
    coversB (ps.foldl (scanStep ow alg) st).rows p = true ∨
      p ∈ (ps.foldl (scanStep ow alg) st).infos
  | q :: ps, st, p, hp => by
    rw [List.foldl_cons]
    rcases List.mem_cons.mp hp with rfl | hp2
    · rcases scanStep_cover_or_info ow alg st p with h | h
      · obtain ⟨⟨f1, hf1⟩, -⟩ := scanFold_extend ow alg ps (scanStep ow alg st p)
        exact Or.inl (by rw [hf1]; exact coversB_mono f1 h)
      · obtain ⟨-, ⟨f2, hf2⟩⟩ := scanFold_extend ow alg ps (scanStep ow alg st p)
        refine Or.inr ?_
        rw [hf2, h]
        exact List.mem_append_left _ (List.mem_append_right _ (List.mem_singleton.mpr rfl))
    · exact scanFold_cover ow alg ps (scanStep ow alg st q) p hp2

/-- When the table already covers every pair, the scan changes nothing
and decides SKIP for each pair in order. -/
theorem scanFold_allskip (alg : String) : ∀ (ps : List (String × Nat)) (st : ScanState),
    (∀ p ∈ ps, coversB st.rows p = true) →
    ps.foldl (scanStep false alg) st =
      { st with decs := st.decs ++ ps.map (fun p => (p, Decision.SKIP)) }
  | [], st => fun _ => by simp
  | p :: ps, st => fun h => by
    have hp : coversB st.rows p = true := h p (List.mem_cons_self p ps)
    have hstep : scanStep false alg st p =
        { st with decs := st.decs ++ [(p, Decision.SKIP)] } := by
      simp only [scanStep]
      rw [if_pos]
      simpa [coversB] using hp
    rw [List.foldl_cons, hstep, scanFold_allskip alg ps
      { st with decs := st.decs ++ [(p, Decision.SKIP)] }
      (fun q hq => h q (List.mem_cons_of_mem p hq))]
    simp

theorem collectStep_extend (alg : String) (st : List ResultRecord × FS)
    (p : String × Nat) :
    ∃ r, (collectStep alg st p).1 = st.1 ++ [r] ∧ coversB (st.1 ++ [r]) p = true := by
  obtain ⟨r, he, hg, hk, -⟩ := collectStep_append alg st p
  exact ⟨r, he, by simp [coversB, List.any_append, hg, hk]⟩

theorem collectFold_extend (alg : String) : ∀ (infos : List (String × Nat))
    (st : List ResultRecord × FS),
    ∃ ext, (infos.foldl (collectStep alg) st).1 = st.1 ++ ext
  | [], st => ⟨[], self_append_nil _⟩
  | p :: infos, st => by
    obtain ⟨r, he, -⟩ := collectStep_extend alg st p
    obtain ⟨ext, hext⟩ := collectFold_extend alg infos (collectStep alg st p)
    exact ⟨[r] ++ ext, by rw [List.foldl_cons, hext, he, List.append_assoc]⟩

/-- After the collection loop, every pending pair is covered by a row. -/
theorem collectFold_cover (alg : String) : ∀ (infos : List (String × Nat))
    (st : List ResultRecord × FS) (p : String × Nat), p ∈ infos →
    coversB (infos.foldl (collectStep alg) st).1 p = true
  | q :: infos, st, p, hp => by
    rw [List.foldl_cons]
    rcases List.mem_cons.mp hp with rfl | hp2
    · obtain ⟨r, he, hc⟩ := collectStep_extend alg st p
      obtain ⟨ext, hext⟩ := collectFold_extend alg infos (collectStep alg st p)
      rw [hext, he]
      exact coversB_mono ext hc
    · exact collectFold_cover alg infos (collectStep alg st q) p hp2

/-! ### Branch equations of the scan step -/

theorem scanStep_tablehit (ow : Bool) (alg : String) (st : ScanState) (p : String × Nat)
    (h : (!ow && st.rows.any fun r => r.graph == p.1 && decide (r.k = p.2)) = true) :
    scanStep ow alg st p = { st with decs := st.decs ++ [(p, Decision.SKIP)] } := by
  simp only [scanStep]
  rw [if_pos h]

theorem scanStep_adopt (alg : String) (st : ScanState) (p : String × Nat) (content : String)
    (hany : (st.rows.any fun r => r.graph == p.1 && decide (r.k = p.2)) = false)
    (hm : st.temp (tempPath alg p.1 p.2) = some content)
    (he : pyStrip content ≠ "") (hl : (pySplit (pyStrip content)).length ≥ 4) :
    scanStep false alg st p =
      { st with
        rows := st.rows ++ [produce_result alg p.1 "0" p.2
          ((pySplit (pyStrip content)).getD 0 "") ((pySplit (pyStrip content)).getD 1 "")
          ((pySplit (pyStrip content)).getD 2 "") ((pySplit (pyStrip content)).getD 3 "")]
        decs := st.decs ++ [(p, Decision.SKIP)] } := by
  simp [scanStep, hany, FS.mem, hm, he, hl]

/-- The temp file of a different path is untouched by a scan step. -/
theorem scanStep_temp_at (ow : Bool) (alg : String) (st : ScanState) (q p : String × Nat)
    (hne : tempPath alg q.1 q.2 ≠ tempPath alg p.1 p.2) :
    (scanStep ow alg st q).temp (tempPath alg p.1 p.2) = st.temp (tempPath alg p.1 p.2) := by
  simp only [scanStep]
  split_ifs <;> simp [FS.remove, Ne.symm hne]

/-- A pair whose temp file holds the sentinel line, or which is covered by
the accumulated rows, is decided SKIP by its own scan step, and the
property persists. -/
theorem scanStep_sentinel (alg : String) (st : ScanState) (p : String × Nat)
    (hinv : st.temp (tempPath alg p.1 p.2) = some "0 0 0 0" ∨ coversB st.rows p = true) :
    (scanStep false alg st p).decs = st.decs ++ [(p, Decision.SKIP)] ∧
    ((scanStep false alg st p).temp (tempPath alg p.1 p.2) = some "0 0 0 0" ∨
      coversB (scanStep false alg st p).rows p = true) := by
  by_cases hcv : coversB st.rows p = true
  · have hstep := scanStep_tablehit false alg st p (by simpa [coversB] using hcv)
    rw [hstep]
    exact ⟨rfl, Or.inr hcv⟩
  · rcases hinv with hts | hc
    · have hany : (st.rows.any fun r => r.graph == p.1 && decide (r.k = p.2)) = false :=
        Bool.eq_false_iff.mpr hcv
      have he : pyStrip "0 0 0 0" ≠ "" := by decide
      have hl : (pySplit (pyStrip "0 0 0 0")).length ≥ 4 := by decide
      have hstep := scanStep_adopt alg st p "0 0 0 0" hany hts he hl
      rw [hstep]
      refine ⟨rfl, Or.inr ?_⟩
      simp [coversB, List.any_append, produce_result]
    · exact absurd hc hcv

/-- Sentinel persistence through the whole scan: every decision recorded
for the pair is SKIP. -/
theorem scanFold_sentinel_skip (alg : String) : ∀ (ps : List (String × Nat))
    (st : ScanState) (p : String × Nat),
    (st.temp (tempPath alg p.1 p.2) = some "0 0 0 0" ∨ coversB st.rows p = true) →
    (∀ q ∈ ps, tempPath alg q.1 q.2 = tempPath alg p.1 p.2 → q = p) →
    (∀ d ∈ st.decs, d.1 = p → d.2 = Decision.SKIP) →
    ∀ d ∈ (ps.foldl (scanStep false alg) st).decs, d.1 = p → d.2 = Decision.SKIP
  | [], _, _ => fun _ _ hdec => hdec
  | q :: ps, st, p => fun hinv hsep hdec => by
    rw [List.foldl_cons]
    refine scanFold_sentinel_skip alg ps (scanStep false alg st q) p ?_ ?_ ?_
    · by_cases hqp : q = p
      · subst hqp
        exact (scanStep_sentinel alg st q hinv).2
      · have hne : tempPath alg q.1 q.2 ≠ tempPath alg p.1 p.2 :=
          fun he => hqp (hsep q (List.mem_cons_self q ps) he)
        rcases hinv with hts | hc
        · exact Or.inl ((scanStep_temp_at false alg st q p hne).trans hts)
        · obtain ⟨⟨ext, hext⟩, -, -⟩ := scanStep_extend false alg st q
          exact Or.inr (by rw [hext]; exact coversB_mono ext hc)
    · exact fun r hr he => hsep r (List.mem_cons_of_mem q hr) he
    · intro d hd hdp
      by_cases hqp : q = p
      · subst hqp
        rw [(scanStep_sentinel alg st q hinv).1] at hd
        rcases List.mem_append.mp hd with h | h
        · exact hdec d h hdp
        · rcases List.mem_singleton.mp h with rfl
          rfl
      · obtain ⟨-, -, d0, hd0⟩ := scanStep_extend false alg st q
        rw [hd0] at hd
        rcases List.mem_append.mp hd with h | h
        · exact hdec d h hdp
        · rcases List.mem_singleton.mp h with rfl
          exact absurd hdp hqp

/-! ### Claim C10: the sentinel makes a failed task permanent -/

/-- The decision trace of a text-family run is fixed by the scan phase. -/
theorem runCuttanaCore_decs (ow qt : Bool) (alg : String) (ks : List Nat)
    (binOut : String → Nat → Option String) (csv : Option (List ResultRecord))
    (temp : FS) (pairs : List (String × Nat)) :
    (runCuttanaCore ow qt alg ks binOut csv temp pairs).decs =
      (cutScan ow alg (if qt then ks.take 1 else ks) csv temp pairs).decs := by
  simp only [runCuttanaCore]
  split_ifs <;> rfl

/-- C10: when text-family extraction fails (temp file missing, or its
first line has fewer than four tokens, which covers an empty line), the
collection step overwrites the temp file with the sentinel "0 0 0 0" and
appends the failed row; the sentinel is non-empty with exactly four
whitespace-separated fields; hence any later run with overwrite disabled
decides SKIP for that pair (adopting the sentinel in the temp-file check,
or hitting the reloaded table row). -/
theorem c10_sentinel_resume (alg : String) (st : List ResultRecord × FS)
    (p : String × Nat) (gs : List String) (ks : List Nat) (ord : String)
    (binOut : String → Nat → Option String) (csv : Option (List ResultRecord))
    (temp : FS) (ps : List (String × Nat)) (o : CutOutcome) :
    (st.2 (tempPath alg p.1 p.2) = none →
      collectStep alg st p = (st.1 ++ [produce_failed_result alg p.1 p.2],
        FS.write st.2 (tempPath alg p.1 p.2) "0 0 0 0")) ∧
    (∀ content, st.2 (tempPath alg p.1 p.2) = some content →
      (pySplit (pyStrip (firstLine content))).length < 4 →
      collectStep alg st p = (st.1 ++ [produce_failed_result alg p.1 p.2],
        FS.write st.2 (tempPath alg p.1 p.2) "0 0 0 0")) ∧
    (pyStrip "0 0 0 0" ≠ "" ∧ (pySplit (pyStrip "0 0 0 0")).length = 4) ∧
    (cuttanaPairs gs ks ord false = some ps →
      runCuttana false false alg gs ks ord binOut csv temp = some o →
      temp (tempPath alg p.1 p.2) = some "0 0 0 0" →
      (∀ q ∈ ps, tempPath alg q.1 q.2 = tempPath alg p.1 p.2 → q = p) →
      ∀ d ∈ o.decs, d.1 = p → d.2 = Decision.SKIP) := by
  refine ⟨?_, ?_, ⟨by decide, by decide⟩, ?_⟩
  · intro hm
    simp [collectStep, parseTempLine, hm]
  · intro content hm hl
    by_cases he : pyStrip (firstLine content) = ""
    · simp [collectStep, parseTempLine, hm, he]
    · simp [collectStep, parseTempLine, hm, he, Nat.not_le.mpr hl]
  · intro hps hrun hsent hsep
    unfold runCuttana at hrun
    rw [hps] at hrun
    have ho : o = runCuttanaCore false false alg ks binOut csv temp ps := by
      cases hrun
      rfl
    rw [ho, runCuttanaCore_decs]
    exact scanFold_sentinel_skip alg ps _ p (Or.inl hsent) hsep
      (fun d hd => absurd hd (List.not_mem_nil d))

/-- Fixture filesystem holding only the sentinel for (g1, 4). -/
def wSentinelFS : FS :=
  fun q => if q = tempPath "alg" "g1" 4 then some "0 0 0 0" else none

/-- Witness for C10: the failed collection of (g1, 4) leaves the sentinel
and the failed row, and a subsequent run over graph set [g1] with k-list
[4] decides SKIP for (g1, 4). -/
theorem c10_witness :
    (collectStep "alg" ([], fun _ => none) ("g1", 4)).1 =
      [produce_failed_result "alg" "g1" 4] ∧
    (collectStep "alg" ([], fun _ => none) ("g1", 4)).2 (tempPath "alg" "g1" 4) =
      some "0 0 0 0" ∧
    (∀ d ∈ (runCuttanaCore false false "alg" [4] (fun _ _ => none) none wSentinelFS
        [("g1", 4)]).decs, d.1 = ("g1", 4) → d.2 = Decision.SKIP) := by
  obtain ⟨h1, -, -, h4⟩ := c10_sentinel_resume "alg" ([], fun _ => none) ("g1", 4)
    ["g1"] [4] "natural" (fun _ _ => none) none wSentinelFS [("g1", 4)]
    (runCuttanaCore false false "alg" [4] (fun _ _ => none) none wSentinelFS [("g1", 4)])
  have h1c := h1 rfl
  refine ⟨by rw [h1c]; rfl, by rw [h1c]; simp [FS.write], ?_⟩
  exact h4 (by decide) rfl (by simp [wSentinelFS]) (by decide)

/-! ### Fold lemmas for the structured-log decision engine -/

theorem fbsDecideStep_decs (ow : Bool) (st : FS × List (Utils.Task × Decision))
    (t : Utils.Task) : ∃ d, (fbsDecideStep ow st t).2 = st.2 ++ [(t, d)] := by
  simp only [fbsDecideStep]
  split_ifs <;> exact ⟨_, rfl⟩

/-- With overwrite disabled, a decision step for one task keeps every
artifact whose path is not the legacy path of that task (and keeps even
that one when legacy and canonical coincide). -/
theorem fbsDecideStep_preserve (st : FS × List (Utils.Task × Decision))
    (t : Utils.Task) (s : String) (hm : FS.mem st.1 s = true)
    (hsep : t.old_target_path = s → t.fbs_target_path = s) :
    FS.mem (fbsDecideStep false st t).1 s = true := by
  simp only [fbsDecideStep, Bool.false_eq_true, if_false]
  split_ifs with h1 h2
  · exact hm
  · rcases hv : st.1 t.old_target_path with _ | c
    · simp [FS.mem, hv] at h2
    · by_cases hs : s = t.fbs_target_path
      · simp [FS.rename, hv, FS.write, FS.mem, hs]
      · by_cases hso : s = t.old_target_path
        · exact absurd (hsep hso.symm).symm hs
        · simpa [FS.rename, hv, FS.write, FS.remove, FS.mem, hs, hso] using hm
  · exact hm

/-- After its own decision step (overwrite disabled), a task either has
its canonical artifact on disk or was decided EXECUTE with the
filesystem untouched. -/
theorem fbsDecideStep_post (st : FS × List (Utils.Task × Decision)) (t : Utils.Task) :
    FS.mem (fbsDecideStep false st t).1 t.fbs_target_path = true ∨
      ((fbsDecideStep false st t).1 = st.1 ∧
        (fbsDecideStep false st t).2 = st.2 ++ [(t, Decision.EXECUTE)]) := by
  simp only [fbsDecideStep, Bool.false_eq_true, if_false]
  split_ifs with h1 h2
  · exact Or.inl h1
  · rcases hv : st.1 t.old_target_path with _ | c
    · simp [FS.mem, hv] at h2
    · exact Or.inl (by simp [FS.rename, hv, FS.write, FS.mem])
  · exact Or.inr ⟨rfl, rfl⟩

theorem fbsFold_decs_extend : ∀ (ts : List Utils.Task)
    (st : FS × List (Utils.Task × Decision)),
    ∃ ext, (ts.foldl (fbsDecideStep false) st).2 = st.2 ++ ext
  | [], st => ⟨[], self_append_nil _⟩
  | t :: ts, st => by
    obtain ⟨d, hd⟩ := fbsDecideStep_decs false st t
    obtain ⟨ext, hext⟩ := fbsFold_decs_extend ts (fbsDecideStep false st t)
    exact ⟨[(t, d)] ++ ext, by rw [List.foldl_cons, hext, hd, List.append_assoc]⟩

theorem fbsFold_preserve : ∀ (ts : List Utils.Task)
    (st : FS × List (Utils.Task × Decision)) (s : String),
    FS.mem st.1 s = true →
    (∀ u ∈ ts, u.old_target_path = s → u.fbs_target_path = s) →
    FS.mem ((ts.foldl (fbsDecideStep false) st)).1 s = true
  | [], _, _ => fun hm _ => hm
  | t :: ts, st, s => fun hm hsep => by
    rw [List.foldl_cons]
    exact fbsFold_preserve ts _ s
      (fbsDecideStep_preserve st t s hm (hsep t (List.mem_cons_self t ts)))
      (fun u hu => hsep u (List.mem_cons_of_mem t hu))

/-- After the decision fold, every task has its canonical artifact or an
EXECUTE decision on record. -/
theorem fbsFold_each : ∀ (ts : List Utils.Task)
    (st : FS × List (Utils.Task × Decision)) (t : Utils.Task), t ∈ ts →
    (∀ u ∈ ts, u.old_target_path = t.fbs_target_path →
      u.fbs_target_path = t.fbs_target_path) →
    FS.mem ((ts.foldl (fbsDecideStep false) st)).1 t.fbs_target_path = true ∨
      (t, Decision.EXECUTE) ∈ (ts.foldl (fbsDecideStep false) st).2
  | u :: ts, st, t, ht, hsep => by
    rw [List.foldl_cons]
    rcases List.mem_cons.mp ht with rfl | ht2
    · rcases fbsDecideStep_post st t with h | ⟨-, hd⟩
      · exact Or.inl (fbsFold_preserve ts _ _ h
          (fun v hv => hsep v (List.mem_cons_of_mem t hv)))
      · obtain ⟨ext, hext⟩ := fbsFold_decs_extend ts (fbsDecideStep false st t)
        refine Or.inr ?_
        rw [hext, hd]
        exact List.mem_append_left _ (List.mem_append_right _ (List.mem_singleton.mpr rfl))
    · exact fbsFold_each ts _ t ht2 (fun v hv => hsep v (List.mem_cons_of_mem u hv))

theorem fbsExec_cons (binW : Utils.Task → Bool) (f : FS)
    (d : Utils.Task × Decision) (ds : List (Utils.Task × Decision)) :
    fbsExec binW f (d :: ds) = fbsExec binW
      (if d.2 = Decision.EXECUTE && binW d.1 then
        FS.write f d.1.fbs_target_path "partition-log" else f) ds := rfl

theorem fbsExec_preserve (binW : Utils.Task → Bool) :
    ∀ (ds : List (Utils.Task × Decision)) (f : FS) (s : String),
    FS.mem f s = true → FS.mem (fbsExec binW f ds) s = true
  | [], _, _ => fun hm => hm
  | d :: ds, f, s => fun hm => by
    rw [fbsExec_cons]
    refine fbsExec_preserve binW ds _ s ?_
    split_ifs with h
    · by_cases hs : s = d.1.fbs_target_path
      · simp [FS.write, FS.mem, hs]
      · simpa [FS.write, FS.mem, hs] using hm
    · exact hm

theorem fbsExec_writes (binW : Utils.Task → Bool) :
    ∀ (ds : List (Utils.Task × Decision)) (f : FS) (t : Utils.Task),
    (t, Decision.EXECUTE) ∈ ds → binW t = true →
    FS.mem (fbsExec binW f ds) t.fbs_target_path = true
  | d :: ds, f, t, ht, hb => by
    rw [fbsExec_cons]
    rcases List.mem_cons.mp ht with rfl | ht2
    · refine fbsExec_preserve binW ds _ _ ?_
      simp [hb, FS.write, FS.mem]
    · exact fbsExec_writes binW ds _ t ht2 hb

/-- When every task already has its canonical artifact, the decision fold
leaves the filesystem untouched and decides SKIP for every task in
order. -/
theorem fbsFold_allskip : ∀ (ts : List Utils.Task)
    (st : FS × List (Utils.Task × Decision)),
    (∀ t ∈ ts, FS.mem st.1 t.fbs_target_path = true) →
    ts.foldl (fbsDecideStep false) st =
      (st.1, st.2 ++ ts.map (fun t => (t, Decision.SKIP)))
  | [], st => fun _ => by simp
  | t :: ts, st => fun h => by
    have hm := h t (List.mem_cons_self t ts)
    have hstep : fbsDecideStep false st t = (st.1, st.2 ++ [(t, Decision.SKIP)]) := by
      simp [fbsDecideStep, hm]
    rw [List.foldl_cons, hstep,
      fbsFold_allskip ts (st.1, st.2 ++ [(t, Decision.SKIP)])
        (fun u hu => h u (List.mem_cons_of_mem t hu))]
    simp

/-! ### Claim C5: idempotence of resume -/

theorem cuttanaPairs_mem_k (gs : List String) (ks : List Nat) (ord : String)
    (ps : List (String × Nat)) (h : cuttanaPairs gs ks ord false = some ps) :
    ∀ p ∈ ps, p.2 ∈ ks := by
  intro p hp
  rcases hq : qualifiedSet gs ord with _ | qs
  · simp [cuttanaPairs, hq] at h
  · simp only [cuttanaPairs, hq, Bool.false_eq_true, if_false, Option.map_some] at h
    cases h
    obtain ⟨g, -, hmem⟩ := List.mem_flatMap.mp hp
    obtain ⟨k, hk, hpk⟩ := List.mem_map.mp hmem
    rw [← hpk]
    exact hk

theorem runCuttanaCore_csv_of_ne (alg : String) (ks : List Nat)
    (binOut : String → Nat → Option String) (csv : Option (List ResultRecord))
    (temp : FS) (pairs : List (String × Nat))
    (h : (cutFin false alg ks binOut csv temp pairs).1 ≠ []) :
    (runCuttanaCore false false alg ks binOut csv temp pairs).csv =
      some (sortRows (cutFin false alg ks binOut csv temp pairs).1) := by
  have hcond : (!(cutFin false alg ks binOut csv temp pairs).1.isEmpty) = true := by
    simp [List.isEmpty_iff, h]
  simp only [runCuttanaCore, Bool.false_eq_true, if_false, Bool.not_false, Bool.true_and]
  rw [if_pos hcond]

/-- Every expanded pair is covered by the in-memory rows at the end of a
text-family run: skipped pairs keep or gain a row, executed pairs always
get one from the collection loop. -/
theorem cutFin_covers (ow : Bool) (alg : String) (ks : List Nat)
    (binOut : String → Nat → Option String) (csv : Option (List ResultRecord))
    (temp : FS) (pairs : List (String × Nat)) (p : String × Nat) (hp : p ∈ pairs) :
    coversB (cutFin ow alg ks binOut csv temp pairs).1 p = true := by
  unfold cutFin
  rcases scanFold_cover ow alg pairs
    { rows := loadRows ow ks csv, temp := temp, infos := [], decs := [] } p hp with h | h
  · obtain ⟨ext, hext⟩ := collectFold_extend alg (cutScan ow alg ks csv temp pairs).infos
      ((cutScan ow alg ks csv temp pairs).rows,
        execPhase alg binOut (cutScan ow alg ks csv temp pairs).temp
          (cutScan ow alg ks csv temp pairs).infos)
    rw [hext]
    exact coversB_mono ext h
  · exact collectFold_cover alg _ _ p h

/-- Second text-family run over the same pairs: the table produced by the
first run covers every pair, so the scan decides SKIP everywhere. -/
theorem cuttana_second_run_all_skip (alg : String) (ks : List Nat)
    (binOut1 binOut2 : String → Nat → Option String)
    (csv : Option (List ResultRecord)) (temp : FS) (ps : List (String × Nat))
    (o1 : CutOutcome) (hks : ∀ p ∈ ps, p.2 ∈ ks)
    (ho1 : o1 = runCuttanaCore false false alg ks binOut1 csv temp ps) :
    ∀ d ∈ (runCuttanaCore false false alg ks binOut2 o1.csv o1.temp ps).decs,
      d.2 = Decision.SKIP := by
  have hcover : ∀ p ∈ ps, coversB (loadRows false ks o1.csv) p = true := by
    intro p hp
    have hcov := cutFin_covers false alg ks binOut1 csv temp ps p hp
    have hne : (cutFin false alg ks binOut1 csv temp ps).1 ≠ [] := by
      intro h0
      rw [h0] at hcov
      simp [coversB] at hcov
    have hcsv : o1.csv = some (sortRows (cutFin false alg ks binOut1 csv temp ps).1) := by
      rw [ho1]
      exact runCuttanaCore_csv_of_ne alg ks binOut1 csv temp ps hne
    obtain ⟨r, hr, hpred⟩ := List.any_eq_true.mp hcov
    have hrk : r.k = p.2 := by
      have := ((Bool.and_eq_true _ _).mp hpred).2
      exact of_decide_eq_true this
    refine List.any_eq_true.mpr ⟨r, ?_, hpred⟩
    rw [hcsv]
    simp only [loadRows, Bool.false_eq_true, if_false]
    refine List.mem_filter.mpr ⟨(sortRows_perm _).mem_iff.mpr hr, ?_⟩
    exact List.elem_iff.mpr (hrk ▸ hks p hp)
  rw [runCuttanaCore_decs]
  unfold cutScan
  rw [scanFold_allskip alg ps _ hcover]
  intro d hd
  simp only [List.nil_append] at hd
  obtain ⟨q, -, hq⟩ := List.mem_map.mp hd
  rw [← hq]

/-- Second structured-log run over the same tasks: when the first run
executed every pending task and each execution wrote its canonical
artifact, every task is covered and the second decision fold skips all. -/
theorem fbs_second_run_all_skip (binW : Utils.Task → Bool) (fs : FS)
    (tasks : List Utils.Task) (hbin : ∀ t, binW t = true)
    (hsep : ∀ u ∈ tasks, ∀ v ∈ tasks, u.old_target_path = v.fbs_target_path →
      u.fbs_target_path = v.fbs_target_path) :
    ∀ d ∈ (runFbsCore false binW (runFbsCore false binW fs tasks).1 tasks).2,
      d.2 = Decision.SKIP := by
  have hcov : ∀ t ∈ tasks,
      FS.mem (runFbsCore false binW fs tasks).1 t.fbs_target_path = true := by
    intro t ht
    unfold runFbsCore
    rcases fbsFold_each tasks (fs, []) t ht (fun u hu => hsep u hu t ht) with h | h
    · exact fbsExec_preserve binW _ _ _ h
    · exact fbsExec_writes binW _ _ t h (hbin t)
  have hsnd : (runFbsCore false binW (runFbsCore false binW fs tasks).1 tasks).2 =
      (tasks.foldl (fbsDecideStep false) ((runFbsCore false binW fs tasks).1, [])).2 := rfl
  rw [hsnd, fbsFold_allskip tasks ((runFbsCore false binW fs tasks).1, []) hcov]
  intro d hd
  simp only [List.nil_append] at hd
  obtain ⟨t, -, ht⟩ := List.mem_map.mp hd
  rw [← ht]

/-- C5: idempotence of resume.  With overwrite disabled, running Task
Expansion plus the Skip/Resume Decision Engine a second time yields zero
EXECUTE decisions.  For the text family this holds for any outcome of the
external executions, because every pair of the first run ends up either
in the rewritten table, adopted from its temp file, or covered by a
sentinel-backed failed row.  For the structured-log family it holds when
every executed job wrote its canonical artifact (hbin) and distinct tasks
do not alias a legacy path to a canonical path (hsep); the engine itself
creates artifacts only by legacy renames, so coverage there comes from
the executions of the first run. -/
theorem c5_resume_idempotent (alg outDir ord : String) (gs : List String)
    (ks : List Nat) (hyper : List (String × String)) (ih : Bool)
    (binOut1 binOut2 : String → Nat → Option String)
    (csv : Option (List ResultRecord)) (temp : FS) (o1 o2 : CutOutcome)
    (binW : Utils.Task → Bool) (fs : FS)
    (r1 r2 : FS × List (Utils.Task × Decision))
    (h1 : runCuttana false false alg gs ks ord binOut1 csv temp = some o1)
    (h2 : runCuttana false false alg gs ks ord binOut2 o1.csv o1.temp = some o2)
    (hbin : ∀ t, binW t = true)
    (hr1 : runFbs false false outDir gs ks ord hyper ih binW fs = some r1)
    (hr2 : runFbs false false outDir gs ks ord hyper ih binW r1.1 = some r2)
    (hsep : ∀ ts, expandFbsTasks outDir gs ks ord hyper ih false = some ts →
      ∀ u ∈ ts, ∀ v ∈ ts, u.old_target_path = v.fbs_target_path →
        u.fbs_target_path = v.fbs_target_path) :
    (∀ d ∈ o2.decs, d.2 = Decision.SKIP) ∧ (∀ d ∈ r2.2, d.2 = Decision.SKIP) := by
  constructor
  · rcases hps : cuttanaPairs gs ks ord false with _ | ps
    · rw [runCuttana, hps] at h1
      cases h1
    · rw [runCuttana, hps] at h1 h2
      have ho1 : o1 = runCuttanaCore false false alg ks binOut1 csv temp ps := by
        cases h1
        rfl
      have ho2 : o2 = runCuttanaCore false false alg ks binOut2 o1.csv o1.temp ps := by
        cases h2
        rfl
      rw [ho2]
      exact cuttana_second_run_all_skip alg ks binOut1 binOut2 csv temp ps o1
        (cuttanaPairs_mem_k gs ks ord ps hps) ho1
  · rcases hts : expandFbsTasks outDir gs ks ord hyper ih false with _ | ts
    · rw [runFbs, hts] at hr1
      cases hr1
    · rw [runFbs, hts] at hr1 hr2
      have hR1 : r1 = runFbsCore false binW fs ts := by
        cases hr1
        rfl
      have hR2 : r2 = runFbsCore false binW r1.1 ts := by
        cases hr2
        rfl
      rw [hR2, hR1]
      exact fbs_second_run_all_skip binW fs ts hbin (hsep ts hts)

/-- Fixture external output for the first text-family run. -/
def wOut1 : String → Nat → Option String := fun _ _ => some "1 2 3 4"

/-- Outcome of the first text-family run on an empty state. -/
def wO1 : CutOutcome :=
  runCuttanaCore false false "alg" [4] wOut1 none (fun _ => none) [("g1", 4)]

/-- Outcome of the first structured-log run on an empty filesystem. -/
def wR1 : FS × List (Utils.Task × Decision) :=
  runFbsCore false (fun _ => true) (fun _ => none) [wTask]

/-- Witness for C5: after a first run from empty state, the second run
does not decide EXECUTE, in either family. -/
theorem c5_witness :
    (("g1", 4), Decision.EXECUTE) ∉
      (runCuttanaCore false false "alg" [4] (fun _ _ => none) wO1.csv wO1.temp
        [("g1", 4)]).decs ∧
    (wTask, Decision.EXECUTE) ∉ (runFbsCore false (fun _ => true) wR1.1 [wTask]).2 := by
  obtain ⟨hA, hB⟩ := c5_resume_idempotent "alg" "out" "natural" ["g1"] [4] [] false
    wOut1 (fun _ _ => none) none (fun _ => none) wO1
    (runCuttanaCore false false "alg" [4] (fun _ _ => none) wO1.csv wO1.temp [("g1", 4)])
    (fun _ => true) (fun _ => none) wR1
    (runFbsCore false (fun _ => true) wR1.1 [wTask])
    rfl rfl (fun _ => rfl) rfl rfl
    (by
      intro ts hts u hu v hv he
      have h0 : expandFbsTasks "out" ["g1"] [4] "natural" [] false false =
          some [wTask] := by decide
      rw [h0] at hts
      cases hts
      simp only [List.mem_singleton] at hu hv
      subst hu
      subst hv
      exact absurd he (by decide))
  constructor
  · intro hmem
    exact absurd (hA _ hmem) (by decide)
  · intro hmem
    exact absurd (hB _ hmem) (by decide)

/-! ### Claim C4: key uniqueness and sortedness of the written table -/

/-- The deduplication key of the canonical table. -/
def keyOf (r : ResultRecord) : String × Nat := (r.graph, r.k)

theorem coversB_iff (rows : List ResultRecord) (p : String × Nat) :
    coversB rows p = true ↔ p ∈ rows.map keyOf := by
  simp only [coversB, List.any_eq_true, List.mem_map, keyOf]
  constructor
  · rintro ⟨r, hr, hpred⟩
    rw [Bool.and_eq_true, beq_iff_eq, decide_eq_true_eq] at hpred
    exact ⟨r, hr, Prod.ext_iff.mpr ⟨hpred.1, hpred.2⟩⟩
  · rintro ⟨r, hr, hkey⟩
    refine ⟨r, hr, ?_⟩
    rw [Bool.and_eq_true, beq_iff_eq, decide_eq_true_eq]
    exact ⟨congrArg Prod.fst hkey, congrArg Prod.snd hkey⟩

/-- A row whose key differs from the probe does not make the cover test
succeed. -/
theorem coversB_append_single (rows : List ResultRecord) (r : ResultRecord)
    (q : String × Nat) (hc : coversB rows q = false) (hk : keyOf r ≠ q) :
    coversB (rows ++ [r]) q = false := by
  rw [← Bool.not_eq_true] at hc ⊢
  intro hcon
  rcases (coversB_iff _ _).mp hcon with hmem
  rw [List.map_append, List.mem_append] at hmem
  rcases hmem with h | h
  · exact hc ((coversB_iff _ _).mpr h)
  · simp only [List.map_cons, List.map_nil, List.mem_singleton] at h
    exact hk h.symm

/-- Case analysis of one scan step with overwrite disabled: a covered pair
changes nothing; otherwise either a row keyed by the pair is appended
(temp adoption) or the pair is queued for execution. -/
theorem scanStep_cases (alg : String) (st : ScanState) (p : String × Nat) :
    (coversB st.rows p = true ∧ (scanStep false alg st p).rows = st.rows ∧
      (scanStep false alg st p).infos = st.infos) ∨
    (coversB st.rows p = false ∧
      ((∃ r, keyOf r = p ∧ (scanStep false alg st p).rows = st.rows ++ [r] ∧
          (scanStep false alg st p).infos = st.infos) ∨
        ((scanStep false alg st p).rows = st.rows ∧
          (scanStep false alg st p).infos = st.infos ++ [p]))) := by
  simp only [scanStep]
  split_ifs with h1 h2 h3 h4
  · exact Or.inl ⟨by simpa [coversB] using h1, rfl, rfl⟩
  · refine Or.inr ⟨by simpa [coversB] using h1, Or.inl ⟨_, ?_, rfl, rfl⟩⟩
    simp [keyOf, produce_result]
  · exact Or.inr ⟨by simpa [coversB] using h1, Or.inr ⟨rfl, rfl⟩⟩
  · exact Or.inr ⟨by simpa [coversB] using h1, Or.inr ⟨rfl, rfl⟩⟩
  · exact Or.inr ⟨by simpa [coversB] using h1, Or.inr ⟨rfl, rfl⟩⟩

/-- Invariant of the scan fold for key uniqueness: if the loaded rows have
pairwise distinct keys and every key lies in scope, and the pair list is
duplicate-free and in scope, then after the scan the rows still have
pairwise distinct keys, every row is in scope, and the pending pairs are
duplicate-free, uncovered, and in scope. -/
theorem scanFold_c4 (alg : String) (ks : List Nat) : ∀ (ps : List (String × Nat))
    (st : ScanState),
    (st.rows.map keyOf).Nodup →
    (∀ r ∈ st.rows, r.k ∈ ks) →
    st.infos.Nodup →
    (∀ q ∈ st.infos, coversB st.rows q = false) →
    (∀ q ∈ st.infos, q.2 ∈ ks) →
    (∀ q ∈ ps, q ∉ st.infos) →
    ps.Nodup →
    (∀ q ∈ ps, q.2 ∈ ks) →
    (((ps.foldl (scanStep false alg) st).rows.map keyOf).Nodup ∧
     (∀ r ∈ (ps.foldl (scanStep false alg) st).rows, r.k ∈ ks) ∧
     (ps.foldl (scanStep false alg) st).infos.Nodup ∧
     (∀ q ∈ (ps.foldl (scanStep false alg) st).infos,
       coversB (ps.foldl (scanStep false alg) st).rows q = false) ∧
     (∀ q ∈ (ps.foldl (scanStep false alg) st).infos, q.2 ∈ ks))
  | [], st => fun i1 i2 i3 i4 i5 _ _ _ => ⟨i1, i2, i3, i4, i5⟩
  | p :: ps, st => fun i1 i2 i3 i4 i5 i6 i7 i8 => by
    rw [List.foldl_cons]
    have hpinf : p ∉ st.infos := i6 p (List.mem_cons_self p ps)
    have hpks : p.2 ∈ ks := i8 p (List.mem_cons_self p ps)
    have hpfresh : ∀ q ∈ ps, q ≠ p := by
      intro q hq he
      exact (List.nodup_cons.mp i7).1 (he ▸ hq)
    rcases scanStep_cases alg st p with ⟨-, hr, hi⟩ | ⟨hcv, hcase⟩
    · refine scanFold_c4 alg ks ps (scanStep false alg st p)
        (by rwa [hr]) (by rwa [hr]) (by rwa [hi]) (by rwa [hr, hi])
        (by rwa [hi]) (fun q hq => by rw [hi]; exact i6 q (List.mem_cons_of_mem p hq))
        (List.nodup_cons.mp i7).2 (fun q hq => i8 q (List.mem_cons_of_mem p hq))
    · rcases hcase with ⟨r, hkey, hr, hi⟩ | ⟨hr, hi⟩
      · have hnotin : p ∉ st.rows.map keyOf := fun hmem =>
          absurd ((coversB_iff _ _).mpr hmem) (by rw [hcv]; exact Bool.false_ne_true)
        refine scanFold_c4 alg ks ps (scanStep false alg st p) ?_ ?_ (by rwa [hi]) ?_
          (by rwa [hi]) (fun q hq => by rw [hi]; exact i6 q (List.mem_cons_of_mem p hq))
          (List.nodup_cons.mp i7).2 (fun q hq => i8 q (List.mem_cons_of_mem p hq))
        · rw [hr, List.map_append]
          refine List.nodup_append.mpr ⟨i1, by simp, ?_⟩
          intro x hx hx2
          simp only [List.map_cons, List.map_nil, List.mem_singleton] at hx2
          exact hnotin ((hx2.trans hkey) ▸ hx)
        · intro r2 hr2
          rw [hr] at hr2
          rcases List.mem_append.mp hr2 with h | h
          · exact i2 r2 h
          · rcases List.mem_singleton.mp h with rfl
            have : r2.k = p.2 := congrArg Prod.snd hkey
            exact this ▸ hpks
        · intro q hq
          rw [hi] at hq
          rw [hr]
          refine coversB_append_single st.rows r q (i4 q hq) ?_
          rw [hkey]
          exact fun he => hpinf (he ▸ hq)
      · refine scanFold_c4 alg ks ps (scanStep false alg st p) (by rwa [hr])
          (by rwa [hr]) ?_ ?_ ?_ ?_ (List.nodup_cons.mp i7).2
          (fun q hq => i8 q (List.mem_cons_of_mem p hq))
        · rw [hi]
          refine List.nodup_append.mpr ⟨i3, by simp, ?_⟩
          intro x hx hx2
          simp only [List.mem_singleton] at hx2
          exact hpinf (hx2 ▸ hx)
        · intro q hq
          rw [hi] at hq
          rw [hr]
          rcases List.mem_append.mp hq with h | h
          · exact i4 q h
          · rcases List.mem_singleton.mp h with rfl
            exact hcv
        · intro q hq
          rw [hi] at hq
          rcases List.mem_append.mp hq with h | h
          · exact i5 q h
          · rcases List.mem_singleton.mp h with rfl
            exact hpks
        · intro q hq
          rw [hi]
          intro hcon
          rcases List.mem_append.mp hcon with h | h
          · exact i6 q (List.mem_cons_of_mem p hq) h
          · rcases List.mem_singleton.mp h with rfl
            exact hpfresh q hq rfl

/-- Invariant of the collection fold: pending pairs are duplicate-free,
uncovered and in scope, so the appended rows keep the keys pairwise
distinct and in scope. -/
theorem collectFold_c4 (alg : String) (ks : List Nat) : ∀ (infos : List (String × Nat))
    (st : List ResultRecord × FS),
    (st.1.map keyOf).Nodup →
    (∀ r ∈ st.1, r.k ∈ ks) →
    infos.Nodup →
    (∀ q ∈ infos, coversB st.1 q = false) →
    (∀ q ∈ infos, q.2 ∈ ks) →
    (((infos.foldl (collectStep alg) st).1.map keyOf).Nodup ∧
     (∀ r ∈ (infos.foldl (collectStep alg) st).1, r.k ∈ ks))
  | [], st => fun i1 i2 _ _ _ => ⟨i1, i2⟩
  | p :: infos, st => fun i1 i2 i3 i4 i5 => by
    rw [List.foldl_cons]
    obtain ⟨r, he, hg, hk, -⟩ := collectStep_append alg st p
    have hkey : keyOf r = p := Prod.ext_iff.mpr ⟨hg, hk⟩
    have hcv : coversB st.1 p = false := i4 p (List.mem_cons_self p infos)
    have hnotin : p ∉ st.1.map keyOf := fun hmem =>
      absurd ((coversB_iff _ _).mpr hmem) (by rw [hcv]; exact Bool.false_ne_true)
    refine collectFold_c4 alg ks infos (collectStep alg st p) ?_ ?_
      (List.nodup_cons.mp i3).2 ?_ (fun q hq => i5 q (List.mem_cons_of_mem p hq))
    · rw [he, List.map_append]
      refine List.nodup_append.mpr ⟨i1, by simp, ?_⟩
      intro x hx hx2
      simp only [List.map_cons, List.map_nil, List.mem_singleton] at hx2
      exact hnotin ((hx2.trans hkey) ▸ hx)
    · intro r2 hr2
      rw [he] at hr2
      rcases List.mem_append.mp hr2 with h | h
      · exact i2 r2 h
      · rcases List.mem_singleton.mp h with rfl
        exact hk ▸ i5 p (List.mem_cons_self p infos)
    · intro q hq
      rw [he]
      refine coversB_append_single st.1 r q (i4 q (List.mem_cons_of_mem p hq)) ?_
      rw [hkey]
      exact fun hpq => (List.nodup_cons.mp i3).1 (hpq ▸ hq)

/-- The in-memory rows at the end of a run extend the loaded table. -/
theorem cutFin_rows_extend (ow : Bool) (alg : String) (ks : List Nat)
    (binOut : String → Nat → Option String) (csv : Option (List ResultRecord))
    (temp : FS) (pairs : List (String × Nat)) :
    ∃ ext, (cutFin ow alg ks binOut csv temp pairs).1 = loadRows ow ks csv ++ ext := by
  obtain ⟨⟨e1, he1⟩, -⟩ := scanFold_extend ow alg pairs
    { rows := loadRows ow ks csv, temp := temp, infos := [], decs := [] }
  obtain ⟨e2, he2⟩ := collectFold_extend alg (cutScan ow alg ks csv temp pairs).infos
    ((cutScan ow alg ks csv temp pairs).rows,
      execPhase alg binOut (cutScan ow alg ks csv temp pairs).temp
        (cutScan ow alg ks csv temp pairs).infos)
  refine ⟨e1 ++ e2, ?_⟩
  unfold cutFin
  rw [he2]
  have : (cutScan ow alg ks csv temp pairs).rows = loadRows ow ks csv ++ e1 := he1
  rw [this, List.append_assoc]

theorem rowLeP_elim {a b : ResultRecord} (h : rowLeP a b) :
    strLtB a.graph b.graph = true ∨ (a.graph = b.graph ∧ a.k ≤ b.k) := by
  simp only [rowLeP, rowLe, Bool.or_eq_true, Bool.and_eq_true, beq_iff_eq,
    decide_eq_true_eq] at h
  exact h

/-- C4: with overwrite disabled, the table written at the end of a
text-family run has at most one row per (graph, k) key, is sorted by
graph (lexicographic) and then k (numeric), contains only rows whose k is
in the configured partition-count list (stale pre-existing rows are
dropped before merging), and keeps every in-scope pre-existing row
unchanged.  Hypotheses: the pre-existing table has pairwise distinct
keys, the expansion is duplicate-free (distinct graph names), and at
least one task is in scope so the table is rewritten at all. -/
theorem c4_table_merge (alg : String) (gs : List String) (ks : List Nat) (ord : String)
    (binOut : String → Nat → Option String) (R : List ResultRecord) (temp : FS)
    (ps : List (String × Nat)) (o : CutOutcome)
    (hps : cuttanaPairs gs ks ord false = some ps)
    (hrun : runCuttana false false alg gs ks ord binOut (some R) temp = some o)
    (hR : (R.map keyOf).Nodup)
    (hnd : ps.Nodup)
    (hne : ps ≠ []) :
    ∃ out, o.csv = some out ∧
      (out.map keyOf).Nodup ∧
      out.Pairwise (fun a b => strLtB a.graph b.graph = true ∨
        (a.graph = b.graph ∧ a.k ≤ b.k)) ∧
      (∀ r ∈ out, r.k ∈ ks) ∧
      (∀ r ∈ R, r.k ∈ ks → r ∈ out) := by
  rw [runCuttana, hps] at hrun
  have ho : o = runCuttanaCore false false alg ks binOut (some R) temp ps := by
    cases hrun
    rfl
  have hload : loadRows false ks (some R) = R.filter (fun row => ks.contains row.k) := by
    simp [loadRows]
  have hload_nodup : ((loadRows false ks (some R)).map keyOf).Nodup := by
    rw [hload]
    exact List.Nodup.sublist (List.Sublist.map keyOf (List.filter_sublist R)) hR
  have hload_ks : ∀ r ∈ loadRows false ks (some R), r.k ∈ ks := by
    intro r hr
    rw [hload] at hr
    exact List.elem_iff.mp (List.mem_filter.mp hr).2
  have hks : ∀ q ∈ ps, q.2 ∈ ks := cuttanaPairs_mem_k gs ks ord ps hps
  obtain ⟨s1, s2, s3, s4, s5⟩ := scanFold_c4 alg ks ps
    { rows := loadRows false ks (some R), temp := temp, infos := [], decs := [] }
    hload_nodup hload_ks List.nodup_nil (by simp) (by simp) (by simp) hnd hks
  obtain ⟨f1, f2⟩ := collectFold_c4 alg ks (cutScan false alg ks (some R) temp ps).infos
    ((cutScan false alg ks (some R) temp ps).rows,
      execPhase alg binOut (cutScan false alg ks (some R) temp ps).temp
        (cutScan false alg ks (some R) temp ps).infos)
    s1 s2 s3 s4 s5
  have hfin1 : ((cutFin false alg ks binOut (some R) temp ps).1.map keyOf).Nodup := f1
  have hfin2 : ∀ r ∈ (cutFin false alg ks binOut (some R) temp ps).1, r.k ∈ ks := f2
  have hfin_ne : (cutFin false alg ks binOut (some R) temp ps).1 ≠ [] := by
    rcases ps with _ | ⟨p, ps0⟩
    · exact absurd rfl hne
    · have hcov := cutFin_covers false alg ks binOut (some R) temp (p :: ps0) p
        (List.mem_cons_self p ps0)
      intro h0
      rw [h0] at hcov
      simp [coversB] at hcov
  refine ⟨sortRows (cutFin false alg ks binOut (some R) temp ps).1, ?_, ?_, ?_, ?_, ?_⟩
  · rw [ho]
    exact runCuttanaCore_csv_of_ne alg ks binOut (some R) temp ps hfin_ne
  · exact ((sortRows_perm _).map keyOf).symm.nodup hfin1
  · exact (sortRows_sorted _).imp (fun h => rowLeP_elim h)
  · intro r hr
    exact hfin2 r ((sortRows_perm _).mem_iff.mp hr)
  · intro r hr hrk
    have hr0 : r ∈ loadRows false ks (some R) := by
      rw [hload]
      exact List.mem_filter.mpr ⟨hr, List.elem_iff.mpr hrk⟩
    obtain ⟨ext, hext⟩ := cutFin_rows_extend false alg ks binOut (some R) temp ps
    refine (sortRows_perm _).mem_iff.mpr ?_
    rw [hext]
    exact List.mem_append_left ext hr0

/-- Fixture pre-existing table: rows for (g, 4) and (g, 8). -/
def wR : List ResultRecord :=
  [produce_result "alg" "g" "0" 4 "1" "2" "3" "4",
   produce_result "alg" "g" "0" 8 "1" "2" "3" "4"]

/-- Witness for C4 on the scenario of the claim: a pre-existing table with
rows for k in [4, 8] under scope [4, 8, 16] and one fresh k = 16 result
gives a written table with distinct keys, only in-scope rows, and both
original rows surviving; concretely it is the three sorted rows. -/
theorem c4_witness :
    (∃ out, (runCuttanaCore false false "alg" [4, 8, 16] wOut1 (some wR) (fun _ => none)
        [("g", 4), ("g", 8), ("g", 16)]).csv = some out ∧
      (out.map keyOf).Nodup ∧ (∀ r ∈ out, r.k ∈ [4, 8, 16]) ∧
      (∀ r ∈ wR, r.k ∈ [4, 8, 16] → r ∈ out)) ∧
    (runCuttanaCore false false "alg" [4, 8, 16] wOut1 (some wR) (fun _ => none)
        [("g", 4), ("g", 8), ("g", 16)]).csv =
      some [produce_result "alg" "g" "0" 4 "1" "2" "3" "4",
        produce_result "alg" "g" "0" 8 "1" "2" "3" "4",
        produce_result "alg" "g" "0" 16 "1" "2" "3" "4"] := by
  constructor
  · obtain ⟨out, h1, h2, -, h4, h5⟩ := c4_table_merge "alg" ["g"] [4, 8, 16] "natural"
      wOut1 wR (fun _ => none) [("g", 4), ("g", 8), ("g", 16)] _
      (by decide) rfl (by decide) (by decide) (by decide)
    exact ⟨out, h1, h2, h4, h5⟩
  · decide
